import Mathlib

/-! Wit NLP response parser (package `wit`, file `infrastructure/wit/parser.go`).

Shallow embedding of `witParser.ParseNlpData`, `toIntent`, `toEntity` and
`extractDateTimeInformation`, together with the parts of the libraries they
call (`jason` accessors, `encoding/json` numbers) and of the `core/nlp`
package (the result types and their constructors).
-/

namespace Wit

/-! ## Values the parser only moves around -/

/-- A float64 as returned by `json.Number.Float64`, given by the decimal
`mantissa * 10 ^ exponent` of the number literal it was read from; the float
itself is the binary64 number nearest to that decimal (`Float64.value`). -/
structure Float64 where
  mantissa : Int
  exponent : Int
deriving DecidableEq, Repr

/-- The integer nearest to a rational, a tie going to the even one. -/
def roundHalfEven (x : ℚ) : ℤ :=
  if x - ⌊x⌋ < 1 / 2 then ⌊x⌋
  else if 1 / 2 < x - ⌊x⌋ then ⌊x⌋ + 1
  else if ⌊x⌋ % 2 = 0 then ⌊x⌋
  else ⌊x⌋ + 1

/-- IEEE 754 rounding to nearest, ties to even, onto the binary format with
`p` significand bits whose smallest positive number is `2 ^ emin` (the
exponent is not bounded above): with `e` the binary exponent of `x`, the
result is the multiple of `2 ^ max (e - (p - 1)) emin` nearest to `x`. -/
def roundBinary (p : ℕ) (emin : ℤ) (x : ℚ) : ℚ :=
  if x = 0 then 0
  else (roundHalfEven (x / (2 : ℚ) ^ max (Int.log 2 |x| - (p - 1)) emin) : ℚ) *
    (2 : ℚ) ^ max (Int.log 2 |x| - (p - 1)) emin

/-- The decimal the float64 was read from. -/
def Float64.decimal (x : Float64) : ℚ := (x.mantissa : ℚ) * (10 : ℚ) ^ x.exponent

/-- The value of the float64: `strconv.ParseFloat` returns the binary64 number
(53 significand bits, smallest positive number `2 ^ -1074`) nearest to the
decimal. A decimal beyond the binary64 range makes `ParseFloat` report an
error, so such a decimal never reaches the parser as a float64. -/
def Float64.value (x : Float64) : ℚ := roundBinary 53 (-1074) x.decimal

/-- A float32, by its value; `none` is an infinity. -/
structure Float32 where
  value : Option ℚ
deriving DecidableEq, Repr

/-- The Go conversion `float32(x)`: the binary32 number (24 significand bits,
smallest positive number `2 ^ -149`) nearest to the float64, an infinity when
the rounded magnitude reaches `2 ^ 128`. -/
def float32 (x : Float64) : Float32 :=
  if (2 : ℚ) ^ (128 : ℕ) ≤ |roundBinary 24 (-149) x.value| then ⟨none⟩
  else ⟨some (roundBinary 24 (-149) x.value)⟩

/-- A `time.Time`, kept as seconds since the Unix epoch (UTC). -/
structure Time where
  unix : Int
deriving DecidableEq, Repr

/-! ## `encoding/json` and `jason` -/

/-- A JSON number as held by the decoder (`json.Number`, decoding uses
`UseNumber`). The parser observes a number only through its two conversions:
`float64` is the result of `Number.Float64()` and `int64` the result of
`Number.Int64()`, each `none` when the conversion reports an error (for
instance `Int64()` on `0.87`). -/
structure Number where
  float64 : Option Float64
  int64 : Option Int
deriving DecidableEq, Repr

/-- A decoded JSON value (`jason.Value`). The fields of an object are the
entries of a Go map, whose keys are pairwise distinct; at the top level the
list is read in the order in which the `range` loop visits the map. -/
inductive Value where
  | null
  | bool (b : Bool)
  | number (n : Number)
  | string (s : String)
  | array (elems : List Value)
  | object (fields : List (String × Value))

/-- A `jason.Object`: the map of a JSON object. -/
structure Object where
  Map : List (String × Value)

/-- `Value.Object()`: the value as an object, `none` (an error) otherwise. -/
def Value.Object : Value → Option Object
  | .object fields => some ⟨fields⟩
  | _ => none

/-- `Value.String()`: the value as a string, `none` (an error) otherwise. -/
def Value.String : Value → Option String
  | .string s => some s
  | _ => none

/-- `Value.Number()`: the value as a JSON number, `none` (an error) otherwise. -/
def Value.Number : Value → Option Number
  | .number n => some n
  | _ => none

/-- `Value.Float64()`. -/
def Value.Float64 (v : Value) : Option Wit.Float64 :=
  match v.Number with
  | none => none
  | some n => n.float64

/-- `Value.Int64()`. -/
def Value.Int64 (v : Value) : Option Int :=
  match v.Number with
  | none => none
  | some n => n.int64

/-- Every element of the slice as an object; `none` as soon as one is not. -/
def objectSlice : List Value → Option (List Object)
  | [] => some []
  | v :: vs =>
    match v.Object with
    | none => none
    | some o =>
      match objectSlice vs with
      | none => none
      | some os => some (o :: os)

/-- `Value.ObjectArray()`: the value as a slice of objects; `none` (an error)
when the value is not an array or one of its elements is not an object. An
empty array gives an empty slice and no error. -/
def Value.ObjectArray : Value → Option (List Wit.Object)
  | .array elems => objectSlice elems
  | _ => none

/-- Lookup of a key in the map of an object (`obj.Map()[key]`). -/
def Object.get (o : Object) (key : String) : Option Value :=
  o.Map.lookup key

/-- `Object.GetString(key)`. -/
def Object.GetString (o : Object) (key : String) : Option String :=
  match o.get key with
  | none => none
  | some child => child.String

/-- `Object.GetFloat64(key)`. -/
def Object.GetFloat64 (o : Object) (key : String) : Option Wit.Float64 :=
  match o.get key with
  | none => none
  | some child => child.Float64

/-- `Object.GetInt64(key)`. -/
def Object.GetInt64 (o : Object) (key : String) : Option Int :=
  match o.get key with
  | none => none
  | some child => child.Int64

/-- `Object.GetObject(key)`. -/
def Object.GetObject (o : Object) (key : String) : Option Wit.Object :=
  match o.get key with
  | none => none
  | some child => child.Object

/-- What the JSON decoder makes of the raw bytes handed to the parser (see
`Decode`): `none` when the decoder reports an error, `some v` when it reads the
value `v`. -/
abbrev RawData := Option Value

/-- `jason.NewObjectFromBytes`, from what the decoder made of the bytes: the
value read must be an object; `none` stands for a non-nil error (of the decoder
or `ErrNotObject`). -/
def NewObjectFromBytes (rawData : RawData) : Option Object :=
  match rawData with
  | none => none
  | some v => v.Object

/-! ## The decoder of `encoding/json` on the raw bytes

A byte is a natural number below 256. -/

/-- White space of the JSON scanner: space, tab, carriage return, line feed. -/
def isSpace (c : Nat) : Bool := c = 32 || c = 9 || c = 13 || c = 10

/-- The bytes from the first one that is not white space. -/
def skipSpace : List Nat → List Nat
  | [] => []
  | c :: rest => if isSpace c then skipSpace rest else c :: rest

/-- Whether the byte is a decimal digit. -/
def isDigit (c : Nat) : Bool := decide (48 ≤ c) && decide (c ≤ 57)

/-- The longest run of decimal digits at the front, as digit values, and the
bytes after it. -/
def takeDigits : List Nat → List Nat × List Nat
  | [] => ([], [])
  | c :: rest =>
    if isDigit c then ((c - 48) :: (takeDigits rest).1, (takeDigits rest).2)
    else ([], c :: rest)

/-- The natural number written by a list of digit values. -/
def digitsValue (digits : List Nat) : Nat :=
  digits.foldl (fun acc d => 10 * acc + d) 0

/-- The least magnitude that `strconv.ParseFloat` no longer rounds to a finite
float64: `2 ^ 1024 - 2 ^ 970`, halfway between the largest float64 and `2 ^ 1024`. -/
def float64Overflow : Nat :=
  179769313486231580793728971405303415079934132710037826936173778980444968292764750946649017977587207096330286416692887910946555547851940402630657488671505820681908902000708383676273854845817711531764475730270069855571366959622842914819860834936475292719074168444365510704342711559699508093042880177904174497792

/-- Whether the decimal `mantissa * 10 ^ exponent` is beyond the float64 range. -/
def overflowsFloat64 (mantissa exponent : Int) : Bool :=
  if 0 ≤ exponent then
    decide (float64Overflow ≤ mantissa.natAbs * 10 ^ exponent.toNat)
  else decide (float64Overflow * 10 ^ (-exponent).toNat ≤ mantissa.natAbs)

/-- The `json.Number` of a number literal, from its sign, the digits of its
integer part, of its fraction and of its exponent. `Float64()` reports an
error beyond the float64 range; `Int64()` reports an error when the literal
has a fraction or an exponent, or lies outside the int64 range. -/
def makeNumber (negative : Bool) (intDigits fracDigits : List Nat) (hasFrac : Bool)
    (expNegative : Bool) (expDigits : List Nat) (hasExp : Bool) : Number :=
  let mantissa : Int :=
    if negative then -(digitsValue (intDigits ++ fracDigits) : Int)
    else (digitsValue (intDigits ++ fracDigits) : Int)
  let exponent : Int :=
    (if expNegative then -(digitsValue expDigits : Int) else (digitsValue expDigits : Int))
      - (fracDigits.length : Int)
  let whole : Int :=
    if negative then -(digitsValue intDigits : Int) else (digitsValue intDigits : Int)
  { float64 := if overflowsFloat64 mantissa exponent then none else some ⟨mantissa, exponent⟩
    int64 :=
      if hasFrac || hasExp then none
      else if -(2 : Int) ^ (63 : ℕ) ≤ whole ∧ whole < (2 : Int) ^ (63 : ℕ) then some whole
      else none }

/-- The optional exponent part of a number literal, and the number read. -/
def scanExponent (negative : Bool) (intDigits fracDigits : List Nat) (hasFrac : Bool)
    (bytes : List Nat) : Option (Number × List Nat) :=
  match bytes with
  | [] => some (makeNumber negative intDigits fracDigits hasFrac false [] false, [])
  | c :: rest =>
    if c = 101 || c = 69 then
      match rest with
      | [] => none
      | s :: rest2 =>
        if s = 43 || s = 45 then
          match takeDigits rest2 with
          | ([], _) => none
          | (d :: ds, rest3) =>
            some (makeNumber negative intDigits fracDigits hasFrac (s = 45) (d :: ds) true,
              rest3)
        else
          match takeDigits rest with
          | ([], _) => none
          | (d :: ds, rest3) =>
            some (makeNumber negative intDigits fracDigits hasFrac false (d :: ds) true, rest3)
    else some (makeNumber negative intDigits fracDigits hasFrac false [] false, c :: rest)

/-- The optional fraction part of a number literal, then the exponent part. -/
def scanFraction (negative : Bool) (intDigits : List Nat) (bytes : List Nat) :
    Option (Number × List Nat) :=
  match bytes with
  | [] => scanExponent negative intDigits [] false []
  | c :: rest =>
    if c = 46 then
      match takeDigits rest with
      | ([], _) => none
      | (d :: ds, rest2) => scanExponent negative intDigits (d :: ds) true rest2
    else scanExponent negative intDigits [] false (c :: rest)

/-- The integer part of a number literal (a single `0` or a run of digits not
starting with `0`), then the fraction and exponent parts. -/
def scanInteger (negative : Bool) (bytes : List Nat) : Option (Number × List Nat) :=
  match bytes with
  | [] => none
  | c :: rest =>
    if c = 48 then scanFraction negative [0] rest
    else if isDigit c then
      scanFraction negative ((c - 48) :: (takeDigits rest).1) (takeDigits rest).2
    else none

/-- A number literal at the front of the bytes, with the bytes after it. -/
def scanNumber (bytes : List Nat) : Option (Number × List Nat) :=
  match bytes with
  | [] => none
  | c :: rest => if c = 45 then scanInteger true rest else scanInteger false (c :: rest)

/-- The value of a hexadecimal digit. -/
def hexValue (c : Nat) : Option Nat :=
  if 48 ≤ c ∧ c ≤ 57 then some (c - 48)
  else if 97 ≤ c ∧ c ≤ 102 then some (c - 87)
  else if 65 ≤ c ∧ c ≤ 70 then some (c - 55)
  else none

/-- One hexadecimal digit. -/
def readHex (bytes : List Nat) : Option (Nat × List Nat) :=
  match bytes with
  | [] => none
  | c :: rest =>
    match hexValue c with
    | some v => some (v, rest)
    | none => none

/-- Four hexadecimal digits, as the number they write. -/
def getu4 (bytes : List Nat) : Option (Nat × List Nat) :=
  match readHex bytes with
  | none => none
  | some (x, r1) =>
    match readHex r1 with
    | none => none
    | some (y, r2) =>
      match readHex r2 with
      | none => none
      | some (z, r3) =>
        match readHex r3 with
        | none => none
        | some (w, r4) => some (4096 * x + 256 * y + 16 * z + w, r4)

/-- One continuation byte of a UTF-8 sequence, within the given bounds. -/
def readCont (lo hi : Nat) (bytes : List Nat) : Option (Nat × List Nat) :=
  match bytes with
  | [] => none
  | b :: rest => if lo ≤ b ∧ b ≤ hi then some (b - 128, rest) else none

/-- `utf8.DecodeRune` on a first byte of 128 or more: the rune and the bytes
after it; an invalid sequence gives U+FFFD and consumes the first byte only. -/
def decodeRune (c : Nat) (rest : List Nat) : Char × List Nat :=
  if 194 ≤ c ∧ c ≤ 223 then
    match readCont 128 191 rest with
    | some (x1, r1) => (Char.ofNat ((c - 192) * 64 + x1), r1)
    | none => (Char.ofNat 65533, rest)
  else if 224 ≤ c ∧ c ≤ 239 then
    match readCont (if c = 224 then 160 else 128) (if c = 237 then 159 else 191) rest with
    | some (x1, r1) =>
      match readCont 128 191 r1 with
      | some (x2, r2) => (Char.ofNat ((c - 224) * 4096 + x1 * 64 + x2), r2)
      | none => (Char.ofNat 65533, rest)
    | none => (Char.ofNat 65533, rest)
  else if 240 ≤ c ∧ c ≤ 244 then
    match readCont (if c = 240 then 144 else 128) (if c = 244 then 143 else 191) rest with
    | some (x1, r1) =>
      match readCont 128 191 r1 with
      | some (x2, r2) =>
        match readCont 128 191 r2 with
        | some (x3, r3) =>
          (Char.ofNat ((c - 240) * 262144 + x1 * 4096 + x2 * 64 + x3), r3)
        | none => (Char.ofNat 65533, rest)
      | none => (Char.ofNat 65533, rest)
    | none => (Char.ofNat 65533, rest)
  else (Char.ofNat 65533, rest)

/-- The low half of a surrogate pair written `\uXXXX`, when the bytes start
with one. -/
def lowSurrogate (bytes : List Nat) : Option (Nat × List Nat) :=
  match bytes with
  | b :: u :: rest =>
    if b = 92 ∧ u = 117 then
      match getu4 rest with
      | some (rr1, rest2) => if 56320 ≤ rr1 ∧ rr1 < 57344 then some (rr1, rest2) else none
      | none => none
    else none
  | _ => none

/-- The character written by a one-letter escape. -/
def simpleEscape (c : Nat) : Option Char :=
  if c = 34 then some (Char.ofNat 34)
  else if c = 92 then some (Char.ofNat 92)
  else if c = 47 then some (Char.ofNat 47)
  else if c = 98 then some (Char.ofNat 8)
  else if c = 102 then some (Char.ofNat 12)
  else if c = 110 then some (Char.ofNat 10)
  else if c = 114 then some (Char.ofNat 13)
  else if c = 116 then some (Char.ofNat 9)
  else none

/-- The character written by `\uXXXX`, from the byte after the `u`: a valid
surrogate pair is combined, a lone surrogate becomes U+FFFD. -/
def scanUnicode (bytes : List Nat) : Option (Char × List Nat) :=
  match getu4 bytes with
  | none => none
  | some (rr, rest2) =>
    if 55296 ≤ rr ∧ rr < 56320 then
      match lowSurrogate rest2 with
      | some (rr1, rest3) =>
        some (Char.ofNat ((rr - 55296) * 1024 + (rr1 - 56320) + 65536), rest3)
      | none => some (Char.ofNat 65533, rest2)
    else if 56320 ≤ rr ∧ rr < 57344 then some (Char.ofNat 65533, rest2)
    else some (Char.ofNat rr, rest2)

/-- The character of an escape sequence, from the byte after the backslash. -/
def scanEscape (bytes : List Nat) : Option (Char × List Nat) :=
  match bytes with
  | [] => none
  | c :: rest =>
    if c = 117 then scanUnicode rest
    else
      match simpleEscape c with
      | some ch => some (ch, rest)
      | none => none

/-- The string written by the bytes after an opening quote, up to the closing
quote: escapes are replaced, a control byte is an error, a byte sequence that
is not valid UTF-8 becomes U+FFFD. The first argument bounds the number of
steps. -/
def scanString : Nat → List Nat → List Char → Option (String × List Nat)
  | 0, _, _ => none
  | fuel + 1, bytes, acc =>
    match bytes with
    | [] => none
    | c :: rest =>
      if c = 34 then some (String.mk acc.reverse, rest)
      else if c = 92 then
        match scanEscape rest with
        | none => none
        | some (ch, rest2) => scanString fuel rest2 (ch :: acc)
      else if c < 32 then none
      else if c < 128 then scanString fuel rest (Char.ofNat c :: acc)
      else scanString fuel (decodeRune c rest).2 ((decodeRune c rest).1 :: acc)

/-- The bytes after the expected ones, when the input starts with them. -/
def expect : List Nat → List Nat → Option (List Nat)
  | [], bytes => some bytes
  | _ :: _, [] => none
  | l :: ls, b :: rest => if l = b then expect ls rest else none

/-- The assignment `m[key] = value` on the entries of a Go map: the value of an
existing key is replaced. -/
def setField (fields : List (String × Value)) (key : String) (value : Value) :
    List (String × Value) :=
  if fields.any (fun f => f.1 == key) then
    fields.map (fun f => if f.1 = key then (key, value) else f)
  else fields ++ [(key, value)]

/-- The elements of an array after the first byte of its first element, up to
the closing bracket. The first argument reads one value; the second bounds the
number of elements. -/
def parseElements (parseValue : List Nat → Option (Value × List Nat)) :
    Nat → List Nat → List Value → Option (List Value × List Nat)
  | 0, _, _ => none
  | fuel + 1, bytes, acc =>
    match parseValue bytes with
    | none => none
    | some (v, rest) =>
      match skipSpace rest with
      | [] => none
      | c :: rest2 =>
        if c = 44 then parseElements parseValue fuel rest2 (acc ++ [v])
        else if c = 93 then some (acc ++ [v], rest2)
        else none

/-- The members of an object from its first key, up to the closing brace. The
first argument reads one value; the second bounds the number of members. -/
def parseMembers (parseValue : List Nat → Option (Value × List Nat)) :
    Nat → List Nat → List (String × Value) → Option (List (String × Value) × List Nat)
  | 0, _, _ => none
  | fuel + 1, bytes, acc =>
    match skipSpace bytes with
    | [] => none
    | q :: rest =>
      if q = 34 then
        match scanString (rest.length + 1) rest [] with
        | none => none
        | some (key, rest2) =>
          match skipSpace rest2 with
          | [] => none
          | colon :: rest3 =>
            if colon = 58 then
              match parseValue rest3 with
              | none => none
              | some (v, rest4) =>
                match skipSpace rest4 with
                | [] => none
                | c :: rest5 =>
                  if c = 44 then parseMembers parseValue fuel rest5 (setField acc key v)
                  else if c = 125 then some (setField acc key v, rest5)
                  else none
            else none
      else none

/-- The first JSON value of the bytes, after leading white space, as the
decoder of `encoding/json` (with `UseNumber`) stores it into an empty
interface, and the bytes after the value. The first argument bounds the depth
of nesting; the fields of an object are listed in the order of the payload. -/
def parseValue : Nat → List Nat → Option (Value × List Nat)
  | 0, _ => none
  | fuel + 1, bytes =>
    match skipSpace bytes with
    | [] => none
    | c :: rest =>
      if c = 123 then
        match skipSpace rest with
        | [] => none
        | c2 :: rest2 =>
          if c2 = 125 then some (.object [], rest2)
          else
            match parseMembers (parseValue fuel) fuel (c2 :: rest2) [] with
            | none => none
            | some (fields, rest3) => some (.object fields, rest3)
      else if c = 91 then
        match skipSpace rest with
        | [] => none
        | c2 :: rest2 =>
          if c2 = 93 then some (.array [], rest2)
          else
            match parseElements (parseValue fuel) fuel (c2 :: rest2) [] with
            | none => none
            | some (elems, rest3) => some (.array elems, rest3)
      else if c = 34 then
        match scanString (rest.length + 1) rest [] with
        | none => none
        | some (s, rest2) => some (.string s, rest2)
      else if c = 116 then
        match expect [114, 117, 101] rest with
        | some rest2 => some (.bool true, rest2)
        | none => none
      else if c = 102 then
        match expect [97, 108, 115, 101] rest with
        | some rest2 => some (.bool false, rest2)
        | none => none
      else if c = 110 then
        match expect [117, 108, 108] rest with
        | some rest2 => some (.null, rest2)
        | none => none
      else
        match scanNumber (c :: rest) with
        | none => none
        | some (n, rest2) => some (.number n, rest2)

/-- What `json.Decoder.Decode` makes of the bytes: the first JSON value, `none`
when the bytes do not start (after white space) with a well-formed JSON value.
The decoder stops at the end of that value; the bytes after it are left
unread. -/
def Decode (bytes : List Nat) : RawData :=
  match parseValue (bytes.length + 1) bytes with
  | none => none
  | some (v, _) => some v

/-- The bytes of a text made of ASCII characters. -/
def asciiBytes (s : String) : List Nat := s.data.map Char.toNat


/-- Whether the bytes are valid JSON as a whole: one JSON value with nothing but
white space around it. -/
def isJsonText (bytes : List Nat) : Bool :=
  match parseValue (bytes.length + 1) bytes with
  | none => false
  | some (_, rest) => (skipSpace rest).isEmpty

/-! ## Package `core/nlp` -/

/-- Modelled from the spec: `nlp.EntityType`, the tag a `DataTypeMap` gives to a
raw field key. The package `core/nlp` is not part of the sources at hand; the
three tags used by the parser are named, any further tag is `other`. -/
inductive EntityType where
  | IntEntity
  | IntentEntity
  | DateTimeEntity
  | other (name : String)
deriving DecidableEq, Repr

/-- Modelled from the spec: `nlp.DataTypeMap`, a Go map from raw field key to
entity type; `none` when the key is absent. -/
abbrev DataTypeMap := String → Option EntityType

/-- Modelled from the spec: `nlp.DateTimeGranularity`, an open string type. -/
abbrev DateTimeGranularity := String

/-- Modelled from the spec: `nlp.ParsedIntent`, the name of an intent. -/
structure ParsedIntent where
  name : String
deriving DecidableEq, Repr

/-- Modelled from the spec: `nlp.ParsedEntity`, one variant per constructor
function the parser calls. -/
inductive ParsedEntity where
  | int (name : String) (confidence : Float32) (value : Int) (role : String)
  | singleDateTime (name : String) (confidence : Float32) (instant : Time)
      (granularity : DateTimeGranularity) (role : String)
  | dateTimeInterval (name : String) (confidence : Float32) (fromTime : Time)
      (fromGranularity : DateTimeGranularity) (toTime : Time)
      (toGranularity : DateTimeGranularity) (role : String)
deriving DecidableEq, Repr

/-- Modelled from the spec: `nlp.ParsedData`, an optional intent and the
entities in insertion order. -/
structure ParsedData where
  intent : Option ParsedIntent
  entities : List ParsedEntity
deriving DecidableEq, Repr

/-- Modelled from the spec: `nlp.NewParsedIntent`. -/
def NewParsedIntent (name : String) : ParsedIntent := ⟨name⟩

/-- Modelled from the spec: `nlp.NewParsedIntEntity(name, confidence, value, role)`. -/
def NewParsedIntEntity (name : String) (confidence : Float32) (value : Int)
    (role : String) : ParsedEntity :=
  .int name confidence value role

/-- Modelled from the spec:
`nlp.NewParsedSingleDateTimeEntity(name, confidence, t, granularity, role)`. -/
def NewParsedSingleDateTimeEntity (name : String) (confidence : Float32) (t : Time)
    (granularity : DateTimeGranularity) (role : String) : ParsedEntity :=
  .singleDateTime name confidence t granularity role

/-- Modelled from the spec: `nlp.NewParsedDateTimeIntervalEntity(name, confidence,
fromTime, toTime, fromGranularity, toGranularity, role)`. -/
def NewParsedDateTimeIntervalEntity (name : String) (confidence : Float32)
    (fromTime toTime : Time) (fromGranularity toGranularity : DateTimeGranularity)
    (role : String) : ParsedEntity :=
  .dateTimeInterval name confidence fromTime fromGranularity toTime toGranularity role

/-- Modelled from the spec: `nlp.NewParsedData(intent, entities)`. -/
def NewParsedData (intent : Option ParsedIntent) (entities : List ParsedEntity) :
    ParsedData :=
  ⟨intent, entities⟩

/-- The name shared by all entity variants. -/
def ParsedEntity.name : ParsedEntity → String
  | .int name _ _ _ => name
  | .singleDateTime name _ _ _ _ => name
  | .dateTimeInterval name _ _ _ _ _ _ => name

/-- Whether the entity is an integer entity. -/
def ParsedEntity.isInt : ParsedEntity → Bool
  | .int _ _ _ _ => true
  | _ => false

/-! ## Package `wit` -/

/-- The errors of the package, one constructor per error value or error
builder; `foreign` is an error built outside the package (by `utils.ParseTime`). -/
inductive Error where
  | ErrCouldNotParseJson
  | ErrCouldNotParseJsonObject
  | ErrMissingKey (key : String)
  | ErrCouldNotCastValue (key expectedType : String)
  | ErrUnhandledDataType (dataType : EntityType)
  | foreign (msg : String)
deriving DecidableEq, Repr

/-- How a call ends: it returns a value with a nil error, returns a non-nil
error with a nil value, or aborts with a run-time panic. -/
inductive Outcome (α : Type) where
  | returned (value : α)
  | failed (err : Error)
  | panicked
deriving DecidableEq, Repr

/-- The map built by `init()`. -/
def defaultDataTypeMap : DataTypeMap := fun key =>
  if key = "nb_persons" then some .IntEntity
  else if key = "intent" then some .IntentEntity
  else if key = "datetime" then some .DateTimeEntity
  else none

/-- The parser for Wit. -/
structure witParser where
  dataTypeMap : DataTypeMap

/-- The constructor of `witParser` (its configuration argument is unused). -/
def newParser : witParser := ⟨defaultDataTypeMap⟩

/-- `toIntent`: the name of the first intent of the array. Indexing the slice
with `object[0]` panics when the slice is empty. -/
def toIntent (value : Value) : Outcome ParsedIntent :=
  match value.ObjectArray with
  | none => .failed .ErrCouldNotParseJsonObject
  | some object =>
    match object with
    | [] => .panicked
    | first :: _ =>
      match first.GetString "value" with
      | none => .failed (.ErrMissingKey "value")
      | some intentName => .returned (NewParsedIntent intentName)

/-- `extractDateTimeInformation`: the instant and the granularity of an object.
`ParseTime` is `utils.ParseTime`, which is not part of the sources at hand. -/
def extractDateTimeInformation (ParseTime : String → Except Error Time)
    (object : Object) : Except Error (Time × DateTimeGranularity) :=
  match object.GetString "value" with
  | none => .error (.ErrMissingKey "value")
  | some value =>
    match ParseTime value with
    | .error err => .error err
    | .ok t =>
      match object.GetString "grain" with
      | none => .error (.ErrMissingKey "grain")
      | some grain => .ok (t, grain)

/-- The body of the `for _, e := range object` loop of `toEntity`, followed by
the statement after the loop. The `int(value)` conversion is the identity
(`int` is 64 bits wide). -/
def toEntityLoop (ParseTime : String → Except Error Time) (name : String)
    (dataType : EntityType) : List Object → Except Error ParsedEntity
  | [] => .error (.ErrUnhandledDataType dataType)
  | e :: rest =>
    match e.GetFloat64 "confidence" with
    | none => .error (.ErrCouldNotCastValue "confidence" "float64")
    | some confidence =>
      match dataType with
      | .IntEntity =>
        match e.GetInt64 "value" with
        | none => .error (.ErrCouldNotCastValue "value" "int64")
        | some value => .ok (NewParsedIntEntity name (float32 confidence) value "")
      | .DateTimeEntity =>
        match e.GetString "value" with
        | none =>
          match e.GetObject "from" with
          | none => .error (.ErrMissingKey "from")
          | some fromObject =>
            match extractDateTimeInformation ParseTime fromObject with
            | .error err => .error err
            | .ok (fromTime, fromGranularity) =>
              match e.GetObject "to" with
              | none => .error (.ErrMissingKey "to")
              | some toObject =>
                match extractDateTimeInformation ParseTime toObject with
                | .error err => .error err
                | .ok (toTime, toGranularity) =>
                  .ok (NewParsedDateTimeIntervalEntity name (float32 confidence)
                    fromTime toTime fromGranularity toGranularity "")
        | some _ =>
          match extractDateTimeInformation ParseTime e with
          | .error err => .error err
          | .ok (t, granularity) =>
            .ok (NewParsedSingleDateTimeEntity name (float32 confidence) t granularity "")
      | _ => toEntityLoop ParseTime name dataType rest

/-- `toEntity`: the entity held by a raw field. -/
def toEntity (ParseTime : String → Except Error Time) (value : Value) (name : String)
    (dataType : EntityType) : Except Error ParsedEntity :=
  match value.ObjectArray with
  | none => .error .ErrCouldNotParseJsonObject
  | some object => toEntityLoop ParseTime name dataType object

/-- The `for key, value := range data.Map()` loop of `ParseNlpData` and the
final `return`; the list is the sequence of entries in the order the loop
visits them, `intent` and `entities` are the two local variables. -/
def rangeLoop (parser : witParser) (ParseTime : String → Except Error Time) :
    List (String × Value) → Option ParsedIntent → List ParsedEntity → Outcome ParsedData
  | [], intent, entities => .returned (NewParsedData intent entities)
  | (key, value) :: rest, intent, entities =>
    match parser.dataTypeMap key with
    | none => rangeLoop parser ParseTime rest intent entities
    | some .IntentEntity =>
      match toIntent value with
      | .panicked => .panicked
      | .failed _ => rangeLoop parser ParseTime rest intent entities
      | .returned i => rangeLoop parser ParseTime rest (some i) entities
    | some dataType =>
      match toEntity ParseTime value key dataType with
      | .error _ => rangeLoop parser ParseTime rest intent entities
      | .ok entity => rangeLoop parser ParseTime rest intent (entities ++ [entity])

/-- `witParser.ParseNlpData`. -/
def ParseNlpData (parser : witParser) (ParseTime : String → Except Error Time)
    (rawData : RawData) : Outcome ParsedData :=
  match NewObjectFromBytes rawData with
  | none => .failed .ErrCouldNotParseJson
  | some data => rangeLoop parser ParseTime data.Map none []

/-! ## Auxiliary definitions used to state the properties -/

/-- Modelled from the spec: `utils.ParseTime` on the two timestamps used in the
examples (the function is not part of the sources at hand); every other string
is rejected. -/
def sampleParseTime : String → Except Error Time := fun s =>
  if s = "2024-03-01T10:00:00Z" then .ok ⟨1709287200⟩
  else if s = "2024-03-02T18:30:00Z" then .ok ⟨1709404200⟩
  else .error (.foreign "cannot parse time")

/-- The entity the loop of `ParseNlpData` appends when it visits a field, if any. -/
def fieldEntity (parser : witParser) (ParseTime : String → Except Error Time)
    (field : String × Value) : Option ParsedEntity :=
  match parser.dataTypeMap field.1 with
  | none => none
  | some .IntentEntity => none
  | some dataType =>
    match toEntity ParseTime field.2 field.1 dataType with
    | .error _ => none
    | .ok entity => some entity

/-- The intent the loop of `ParseNlpData` assigns when it visits a field, if any. -/
def fieldIntent (parser : witParser) (field : String × Value) : Option ParsedIntent :=
  match parser.dataTypeMap field.1 with
  | some .IntentEntity =>
    match toIntent field.2 with
    | .returned i => some i
    | _ => none
  | _ => none

/-- The value of the variable `intent` after the loop has visited the fields. -/
def lastIntent (parser : witParser) :
    List (String × Value) → Option ParsedIntent → Option ParsedIntent
  | [], intent => intent
  | field :: rest, intent =>
    match fieldIntent parser field with
    | some i => lastIntent parser rest (some i)
    | none => lastIntent parser rest intent

/-- No field mapped to the intent type holds an empty array. -/
def NoEmptyIntent (parser : witParser) (fields : List (String × Value)) : Prop :=
  ∀ field ∈ fields, parser.dataTypeMap field.1 = some .IntentEntity → field.2 ≠ .array []

/-- The JSON number `3`: `Float64()` gives 3, `Int64()` gives 3. -/
def jsonThree : Value := .number ⟨some ⟨3, 0⟩, some 3⟩

/-- The JSON number `0.87`: `Float64()` gives 0.87, `Int64()` reports an error. -/
def jsonConfidence087 : Value := .number ⟨some ⟨87, -2⟩, none⟩

/-- The JSON number `0.9`: `Float64()` gives 0.9, `Int64()` reports an error. -/
def jsonConfidence09 : Value := .number ⟨some ⟨9, -1⟩, none⟩

/-- The candidate `{"value": 3, "confidence": 0.87}`. -/
def intCandidate : Object := ⟨[("value", jsonThree), ("confidence", jsonConfidence087)]⟩

/-- The candidate `{"value": 3}`, which lacks `confidence`. -/
def intCandidateNoConfidence : Object := ⟨[("value", jsonThree)]⟩

/-- The candidate
`{"value": "2024-03-01T10:00:00Z", "grain": "hour", "confidence": 0.9}`. -/
def dateTimeCandidate : Object :=
  ⟨[("value", .string "2024-03-01T10:00:00Z"), ("grain", .string "hour"),
    ("confidence", jsonConfidence09)]⟩

/-- The object `{"value": "2024-03-01T10:00:00Z", "grain": "hour"}`. -/
def boundFrom : Object :=
  ⟨[("value", .string "2024-03-01T10:00:00Z"), ("grain", .string "hour")]⟩

/-- The object `{"value": "2024-03-02T18:30:00Z", "grain": "minute"}`. -/
def boundTo : Object :=
  ⟨[("value", .string "2024-03-02T18:30:00Z"), ("grain", .string "minute")]⟩

/-- The candidate `{"confidence": 0.9, "from": ..., "to": ...}` with the two
bounds above and no `value`. -/
def intervalCandidate : Object :=
  ⟨[("confidence", jsonConfidence09), ("from", .object boundFrom.Map),
    ("to", .object boundTo.Map)]⟩

/-- The candidate `{"confidence": 0.9, "from": ...}`, with no `value` and no `to`. -/
def intervalCandidateNoTo : Object :=
  ⟨[("confidence", jsonConfidence09), ("from", .object boundFrom.Map)]⟩

/-- The candidate `{"confidence": 0.9, "value": "book_table"}`. -/
def intentCandidate : Object :=
  ⟨[("confidence", jsonConfidence09), ("value", .string "book_table")]⟩

/-- The candidate `{"confidence": 0.9, "value": "greet"}`. -/
def intentCandidateOther : Object :=
  ⟨[("confidence", jsonConfidence09), ("value", .string "greet")]⟩

/-- The field `"nb_persons": [{"value": 3, "confidence": 0.87}]`. -/
def nbPersonsField : String × Value :=
  ("nb_persons", .array [.object intCandidate.Map])

/-- The field `"datetime": [{"value": "2024-03-01T10:00:00Z", "grain": "hour",
"confidence": 0.9}]`. -/
def dateTimeField : String × Value :=
  ("datetime", .array [.object dateTimeCandidate.Map])

/-- Whether the key is present in the data type map of the parser. -/
def knownKey (parser : witParser) (field : String × Value) : Bool :=
  (parser.dataTypeMap field.1).isSome

/-- The confidence shared by all entity variants. -/
def ParsedEntity.confidence : ParsedEntity → Float32
  | .int _ confidence _ _ => confidence
  | .singleDateTime _ confidence _ _ _ => confidence
  | .dateTimeInterval _ confidence _ _ _ _ _ => confidence

/-- The role of an entity. -/
def ParsedEntity.role : ParsedEntity → String
  | .int _ _ _ role => role
  | .singleDateTime _ _ _ _ role => role
  | .dateTimeInterval _ _ _ _ _ _ role => role

/-- Whether the entity is a date/time interval entity. -/
def ParsedEntity.isInterval : ParsedEntity → Bool
  | .dateTimeInterval _ _ _ _ _ _ _ => true
  | _ => false

/-- The entity holds what the candidate provides, every required sub-field
being present and of the right type: a numeric `confidence`, plus an integer
`value` for an integer entity, or a parseable string `value` and a string
`grain` for a single date/time, or objects `from` and `to` each with a
parseable string `value` and a string `grain` for an interval. Written from
the words of the specification. -/
def FullyExtracted (ParseTime : String → Except Error Time) (candidate : Object) :
    ParsedEntity → Prop
  | .int _ confidence value _ =>
    ∃ c, candidate.GetFloat64 "confidence" = some c ∧ confidence = float32 c ∧
      candidate.GetInt64 "value" = some value
  | .singleDateTime _ confidence instant granularity _ =>
    ∃ c s, candidate.GetFloat64 "confidence" = some c ∧ confidence = float32 c ∧
      candidate.GetString "value" = some s ∧ ParseTime s = .ok instant ∧
      candidate.GetString "grain" = some granularity
  | .dateTimeInterval _ confidence fromTime fromGranularity toTime toGranularity _ =>
    ∃ c fromObject toObject s1 s2,
      candidate.GetFloat64 "confidence" = some c ∧ confidence = float32 c ∧
      candidate.GetObject "from" = some fromObject ∧
      fromObject.GetString "value" = some s1 ∧ ParseTime s1 = .ok fromTime ∧
      fromObject.GetString "grain" = some fromGranularity ∧
      candidate.GetObject "to" = some toObject ∧
      toObject.GetString "value" = some s2 ∧ ParseTime s2 = .ok toTime ∧
      toObject.GetString "grain" = some toGranularity

/-- Whether the key is mapped to an entity type, that is to a type other than
the intent type. -/
def entityKey (parser : witParser) (field : String × Value) : Bool :=
  match parser.dataTypeMap field.1 with
  | none => false
  | some .IntentEntity => false
  | some _ => true

/-- The candidate `{"value": 3, "confidence": 0.87, "role": "guests"}`. -/
def intCandidateWithRole : Object :=
  ⟨[("value", jsonThree), ("confidence", jsonConfidence087), ("role", .string "guests")]⟩

/-- The candidate `{"confidence": 0.9, "value": 3, "from": ..., "to": ...}`:
its `value` is a number and the two bounds are those above. -/
def intervalCandidateNumericValue : Object :=
  ⟨[("confidence", jsonConfidence09), ("value", jsonThree),
    ("from", .object boundFrom.Map), ("to", .object boundTo.Map)]⟩

/-- The candidate `{"confidence": 0.9, "value": "2024-03-01T10:00:00Z",
"grain": "hour", "from": ..., "to": ...}`: a string `value` next to the two
bounds above. -/
def dateTimeCandidateWithBounds : Object :=
  ⟨[("confidence", jsonConfidence09), ("value", .string "2024-03-01T10:00:00Z"),
    ("grain", .string "hour"), ("from", .object boundFrom.Map),
    ("to", .object boundTo.Map)]⟩

/-- The candidate `{"value": "Paris"}`, which lacks `confidence`. -/
def locationCandidateNoConfidence : Object := ⟨[("value", .string "Paris")]⟩

/-- The candidate `{"value": "Paris", "confidence": 0.9}`. -/
def locationCandidate : Object :=
  ⟨[("value", .string "Paris"), ("confidence", jsonConfidence09)]⟩

/-- A parser whose map sends `location` to an entity type without extractor and
is the default map elsewhere. -/
def locationParser : witParser :=
  ⟨fun key => if key = "location" then some (.other "location") else defaultDataTypeMap key⟩

end Wit

namespace Core

/-! ## Packages `core/api` and `core/bot`: the builder registries -/

/-- A Go `error` value as the registries see it: the two exported sentinel
values of the packages, or any other error (told apart by its message). -/
inductive GoError where
  | ErrFacebookApiNotFound
  | ErrRepositoryNotFound
  | other (msg : String)
deriving DecidableEq, Repr

/-- `FacebookApiBuilder`: a function from a configuration to the Go pair
`(FacebookApi, error)`, `none` standing for `nil`. The interface `FacebookApi`
and `utils.BuilderConf` are type parameters; a builder is a function that
returns (a nil or panicking builder is outside the model). -/
abbrev FacebookApiBuilder (FacebookApi BuilderConf : Type) : Type :=
  BuilderConf → Option FacebookApi × Option GoError

/-- The state of package `api`: the map `facebookApiBuilders` (`none` for an
absent key) and the names for which a warning was logged, oldest first. -/
structure ApiState (FacebookApi BuilderConf : Type) where
  facebookApiBuilders : String → Option (FacebookApiBuilder FacebookApi BuilderConf)
  warnings : List String

/-- The state of package `api` at start: `make(map[string]FacebookApiBuilder)`. -/
def apiStart (FacebookApi BuilderConf : Type) : ApiState FacebookApi BuilderConf :=
  ⟨fun _ => none, []⟩

/-- `RegisterFacebookApiBuilder`: logs a warning when the name is already
registered, then stores the builder under the name in either case. -/
def RegisterFacebookApiBuilder {FacebookApi BuilderConf : Type}
    (st : ApiState FacebookApi BuilderConf) (name : String)
    (builder : FacebookApiBuilder FacebookApi BuilderConf) :
    ApiState FacebookApi BuilderConf :=
  let registered := (st.facebookApiBuilders name).isSome
  { facebookApiBuilders := fun key =>
      if key = name then some builder else st.facebookApiBuilders key
    warnings := if registered then st.warnings ++ [name] else st.warnings }

/-- `NewFacebookApi`: the Go pair `(FacebookApi, error)` it returns. -/
def NewFacebookApi {FacebookApi BuilderConf : Type}
    (st : ApiState FacebookApi BuilderConf) (name : String) (conf : BuilderConf) :
    Option FacebookApi × Option GoError :=
  match st.facebookApiBuilders name with
  | none => (none, some .ErrFacebookApiNotFound)
  | some facebookApiBuilder =>
    match facebookApiBuilder conf with
    | (_, some err) => (none, some err)
    | (facebookApi, none) => (facebookApi, none)

/-- `RepositoryBuilder`: a function from a configuration to the Go pair
`(Repository, error)`, `none` standing for `nil`. -/
abbrev RepositoryBuilder (Repository Conf : Type) : Type :=
  Conf → Option Repository × Option GoError

/-- The state of package `bot`: the map `repositoryBuilders` and the names for
which a warning was logged, oldest first. -/
structure BotState (Repository Conf : Type) where
  repositoryBuilders : String → Option (RepositoryBuilder Repository Conf)
  warnings : List String

/-- The state of package `bot` at start: `make(map[string]RepositoryBuilder)`. -/
def botStart (Repository Conf : Type) : BotState Repository Conf :=
  ⟨fun _ => none, []⟩

/-- `RegisterRepositoryBuilder`: logs a warning when the name is already
registered, then stores the builder under the name in either case. -/
def RegisterRepositoryBuilder {Repository Conf : Type}
    (st : BotState Repository Conf) (name : String)
    (builder : RepositoryBuilder Repository Conf) : BotState Repository Conf :=
  let registered := (st.repositoryBuilders name).isSome
  { repositoryBuilders := fun key =>
      if key = name then some builder else st.repositoryBuilders key
    warnings := if registered then st.warnings ++ [name] else st.warnings }

/-- `NewRepository`: the Go pair `(Repository, error)` it returns. -/
def NewRepository {Repository Conf : Type}
    (st : BotState Repository Conf) (name : String) (conf : Conf) :
    Option Repository × Option GoError :=
  match st.repositoryBuilders name with
  | none => (none, some .ErrRepositoryNotFound)
  | some repositoryBuilder =>
    match repositoryBuilder conf with
    | (_, some err) => (none, some err)
    | (repository, none) => (repository, none)

/-- The state of package `api` after a sequence of `RegisterFacebookApiBuilder`
calls, oldest call first. -/
def registerFacebookApiBuilders {FacebookApi BuilderConf : Type}
    (calls : List (String × FacebookApiBuilder FacebookApi BuilderConf)) :
    ApiState FacebookApi BuilderConf :=
  calls.foldl (fun st call => RegisterFacebookApiBuilder st call.1 call.2)
    (apiStart FacebookApi BuilderConf)

/-- The state of package `bot` after a sequence of `RegisterRepositoryBuilder`
calls, oldest call first. -/
def registerRepositoryBuilders {Repository Conf : Type}
    (calls : List (String × RepositoryBuilder Repository Conf)) :
    BotState Repository Conf :=
  calls.foldl (fun st call => RegisterRepositoryBuilder st call.1 call.2)
    (botStart Repository Conf)

/-- The builder of the most recent call made under the name in a sequence of
registration calls (oldest call first); `none` when no call used the name.
Written from the words of the specification. -/
def mostRecent {Builder : Type} (name : String) : List (String × Builder) → Option Builder
  | [] => none
  | call :: later =>
    match mostRecent name later with
    | some builder => some builder
    | none => if call.1 = name then some call.2 else none

/-- What a creation call hands back from the pair a builder returned: the
instance with a nil error, or a nil instance with the error of the builder. -/
def handedBack {Instance : Type} (built : Option Instance × Option GoError) :
    Option Instance × Option GoError :=
  match built with
  | (_, some err) => (none, some err)
  | (inst, none) => (inst, none)

/-- A builder that builds the instance `"first"`. -/
def firstBuilder : Unit → Option String × Option GoError := fun _ => (some "first", none)

/-- A builder that builds the instance `"second"`. -/
def secondBuilder : Unit → Option String × Option GoError := fun _ => (some "second", none)

/-- A builder that fails with an error of its own. -/
def failingBuilder : Unit → Option String × Option GoError :=
  fun _ => (none, some (.other "invalid or missing param"))

/-- A builder of Facebook APIs that fails with the exported error value
`ErrFacebookApiNotFound`. -/
def notFoundBuilder : Unit → Option String × Option GoError :=
  fun _ => (none, some .ErrFacebookApiNotFound)

end Core

namespace Wit

/-! ## Properties -/

/-- The accessor `ObjectArray` gives an empty slice only for the empty array. -/
theorem ObjectArray_eq_nil {value : Value} (h : value.ObjectArray = some []) :
    value = .array [] := by
  cases value with
  | array elems =>
    cases elems with
    | nil => rfl
    | cons v vs =>
      simp only [Value.ObjectArray, objectSlice] at h
      cases hv : v.Object with
      | none => simp [hv] at h
      | some o =>
        cases hvs : objectSlice vs with
        | none => simp [hv, hvs] at h
        | some os => simp [hv, hvs] at h
  | _ => simp [Value.ObjectArray] at h

/-- The function `toIntent` panics exactly on the empty array. -/
theorem toIntent_panicked_iff (value : Value) :
    toIntent value = .panicked ↔ value = .array [] := by
  constructor
  · intro h
    unfold toIntent at h
    cases hoa : value.ObjectArray with
    | none => simp [hoa] at h
    | some object =>
      cases object with
      | nil => exact ObjectArray_eq_nil hoa
      | cons first rest =>
        simp only [hoa] at h
        cases hs : first.GetString "value" with
        | none => simp [hs] at h
        | some s => simp [hs] at h
  · intro h
    subst h
    rfl

/-- Visiting a field either panics (intent-typed field holding an empty array)
or continues with the intent and the entities updated by that field. -/
theorem rangeLoop_cons (parser : witParser) (ParseTime : String → Except Error Time)
    (field : String × Value) (rest : List (String × Value))
    (intent : Option ParsedIntent) (entities : List ParsedEntity)
    (h : parser.dataTypeMap field.1 = some .IntentEntity → field.2 ≠ .array []) :
    rangeLoop parser ParseTime (field :: rest) intent entities =
      rangeLoop parser ParseTime rest
        (match fieldIntent parser field with
          | some i => some i
          | none => intent)
        (entities ++ (fieldEntity parser ParseTime field).toList) := by
  obtain ⟨key, value⟩ := field
  simp only [rangeLoop, fieldIntent, fieldEntity]
  cases hd : parser.dataTypeMap key with
  | none => simp
  | some dataType =>
    cases dataType with
    | IntentEntity =>
      have hne : toIntent value ≠ .panicked := fun hp =>
        h hd ((toIntent_panicked_iff value).1 hp)
      cases hi : toIntent value with
      | panicked => exact absurd hi hne
      | failed err => simp
      | returned i => simp
    | IntEntity =>
      cases he : toEntity ParseTime value key .IntEntity with
      | error err => simp [he]
      | ok entity => simp [he]
    | DateTimeEntity =>
      cases he : toEntity ParseTime value key .DateTimeEntity with
      | error err => simp [he]
      | ok entity => simp [he]
    | other name =>
      cases he : toEntity ParseTime value key (.other name) with
      | error err => simp [he]
      | ok entity => simp [he]

/-- When no intent-typed field holds an empty array the loop returns, with the
last intent assigned and the entities of the fields in visiting order. -/
theorem rangeLoop_returned (parser : witParser) (ParseTime : String → Except Error Time)
    (fields : List (String × Value)) (intent : Option ParsedIntent)
    (entities : List ParsedEntity) (h : NoEmptyIntent parser fields) :
    rangeLoop parser ParseTime fields intent entities =
      .returned ⟨lastIntent parser fields intent,
        entities ++ fields.filterMap (fieldEntity parser ParseTime)⟩ := by
  induction fields generalizing intent entities with
  | nil => simp [rangeLoop, lastIntent, NewParsedData]
  | cons field rest ih =>
    have hrest : NoEmptyIntent parser rest := fun f hf => h f (List.mem_cons_of_mem _ hf)
    rw [rangeLoop_cons parser ParseTime field rest intent entities
      (h field (List.mem_cons_self _ _))]
    rw [ih _ _ hrest]
    cases hi : fieldIntent parser field <;>
      cases he : fieldEntity parser ParseTime field <;>
      simp [lastIntent, hi, he, List.filterMap_cons]

/-- A field that leaves the loop variables unchanged can be removed from the
sequence of visited fields. -/
theorem rangeLoop_remove (parser : witParser) (ParseTime : String → Except Error Time)
    (field : String × Value)
    (hskip : ∀ rest intent entities,
      rangeLoop parser ParseTime (field :: rest) intent entities =
        rangeLoop parser ParseTime rest intent entities)
    (pre post : List (String × Value)) (intent : Option ParsedIntent)
    (entities : List ParsedEntity) :
    rangeLoop parser ParseTime (pre ++ field :: post) intent entities =
      rangeLoop parser ParseTime (pre ++ post) intent entities := by
  induction pre generalizing intent entities with
  | nil => simpa using hskip post intent entities
  | cons f pre ih =>
    obtain ⟨key, value⟩ := f
    simp only [List.cons_append, rangeLoop]
    cases hd : parser.dataTypeMap key with
    | none => simpa using ih intent entities
    | some dataType =>
      cases dataType with
      | IntentEntity =>
        cases hi : toIntent value with
        | panicked => simp
        | failed err => simpa using ih intent entities
        | returned i => simpa using ih (some i) entities
      | IntEntity =>
        cases he : toEntity ParseTime value key .IntEntity with
        | error err => simpa [he] using ih intent entities
        | ok entity => simpa [he] using ih intent (entities ++ [entity])
      | DateTimeEntity =>
        cases he : toEntity ParseTime value key .DateTimeEntity with
        | error err => simpa [he] using ih intent entities
        | ok entity => simpa [he] using ih intent (entities ++ [entity])
      | other name =>
        cases he : toEntity ParseTime value key (.other name) with
        | error err => simpa [he] using ih intent entities
        | ok entity => simpa [he] using ih intent (entities ++ [entity])

/-- When the decoder reports an error, or reads a value that is not an object,
`ParseNlpData` returns the error `ErrCouldNotParseJson` and no `ParsedData`. -/
theorem ParseNlpData_malformed (parser : witParser)
    (ParseTime : String → Except Error Time) (rawData : RawData)
    (h : ∀ fields, rawData ≠ some (.object fields)) :
    ParseNlpData parser ParseTime rawData = .failed .ErrCouldNotParseJson := by
  unfold ParseNlpData NewObjectFromBytes
  cases rawData with
  | none => rfl
  | some v =>
    cases v with
    | object fields => exact absurd rfl (h fields)
    | _ => rfl

/-- C2 fails on the code: on the well-formed object whose only field is
`"intent": []`, `ParseNlpData` with the default map aborts with a run-time
panic (index out of range in `toIntent`) instead of returning a `ParsedData`. -/
theorem ParseNlpData_empty_intent_panics (ParseTime : String → Except Error Time) :
    ParseNlpData newParser ParseTime (some (.object [("intent", .array [])])) =
      .panicked := by
  rfl

/-- For a type other than the integer and the date/time type, the loop of
`toEntity` never builds an entity. -/
theorem toEntityLoop_unhandled (ParseTime : String → Except Error Time) (name : String)
    (dataType : EntityType) (hint : dataType ≠ .IntEntity)
    (hdate : dataType ≠ .DateTimeEntity) (object : List Object) :
    ∃ err, toEntityLoop ParseTime name dataType object = .error err := by
  induction object with
  | nil => exact ⟨_, rfl⟩
  | cons e rest ih =>
    cases hc : e.GetFloat64 "confidence" with
    | none => exact ⟨.ErrCouldNotCastValue "confidence" "float64", by simp [toEntityLoop, hc]⟩
    | some confidence =>
      obtain ⟨err, herr⟩ := ih
      refine ⟨err, ?_⟩
      cases dataType with
      | IntEntity => exact absurd rfl hint
      | DateTimeEntity => exact absurd rfl hdate
      | IntentEntity => simpa [toEntityLoop, hc] using herr
      | other n => simpa [toEntityLoop, hc] using herr

/-- An integer entity is only built for the integer type. -/
theorem toEntity_isInt (ParseTime : String → Except Error Time) (value : Value)
    (name : String) (dataType : EntityType) (entity : ParsedEntity)
    (h : toEntity ParseTime value name dataType = .ok entity)
    (hi : entity.isInt = true) : dataType = .IntEntity := by
  by_contra hne
  unfold toEntity at h
  cases hoa : value.ObjectArray with
  | none => simp [hoa] at h
  | some object =>
    simp only [hoa] at h
    by_cases hdate : dataType = .DateTimeEntity
    · subst hdate
      cases object with
      | nil => simp [toEntityLoop] at h
      | cons e rest =>
        simp only [toEntityLoop] at h
        repeat' split at h
        all_goals
          cases h <;>
            simp [NewParsedDateTimeIntervalEntity, NewParsedSingleDateTimeEntity,
              ParsedEntity.isInt] at hi
    · obtain ⟨err, herr⟩ := toEntityLoop_unhandled ParseTime name dataType hne hdate object
      rw [herr] at h
      exact absurd h (by simp)

/-- Fields of other types contribute no integer entity. -/
theorem filterMap_fieldEntity_isInt (parser : witParser)
    (ParseTime : String → Except Error Time) (fields : List (String × Value))
    (h : ∀ field ∈ fields, parser.dataTypeMap field.1 ≠ some .IntEntity) :
    (fields.filterMap (fieldEntity parser ParseTime)).filter (fun e => e.isInt) = [] := by
  rw [List.filter_eq_nil_iff]
  intro entity hmem
  rw [List.mem_filterMap] at hmem
  obtain ⟨field, hfield, hent⟩ := hmem
  intro hi
  unfold fieldEntity at hent
  cases hd : parser.dataTypeMap field.1 with
  | none => simp [hd] at hent
  | some dataType =>
    have hne : dataType ≠ .IntEntity := fun heq => h field hfield (by rw [hd, heq])
    cases dataType with
    | IntEntity => exact absurd rfl hne
    | IntentEntity => simp [hd] at hent
    | DateTimeEntity =>
      simp only [hd] at hent
      cases he : toEntity ParseTime field.2 field.1 .DateTimeEntity with
      | error err => simp [he] at hent
      | ok e =>
        simp only [he, Option.some.injEq] at hent
        subst hent
        exact absurd (toEntity_isInt ParseTime _ _ _ _ he hi) (by simp)
    | other n =>
      simp only [hd] at hent
      cases he : toEntity ParseTime field.2 field.1 (.other n) with
      | error err => simp [he] at hent
      | ok e =>
        simp only [he, Option.some.injEq] at hent
        subst hent
        exact absurd (toEntity_isInt ParseTime _ _ _ _ he hi) (by simp)

/-- A field whose type is an entity type and for which `toEntity` fails leaves
the loop variables unchanged. -/
theorem rangeLoop_skip_entity (parser : witParser)
    (ParseTime : String → Except Error Time) (key : String) (value : Value)
    (dataType : EntityType) (err : Error)
    (hkey : parser.dataTypeMap key = some dataType) (hne : dataType ≠ .IntentEntity)
    (hfail : toEntity ParseTime value key dataType = .error err)
    (rest : List (String × Value)) (intent : Option ParsedIntent)
    (entities : List ParsedEntity) :
    rangeLoop parser ParseTime ((key, value) :: rest) intent entities =
      rangeLoop parser ParseTime rest intent entities := by
  cases dataType with
  | IntentEntity => exact absurd rfl hne
  | IntEntity => simp [rangeLoop, hkey, hfail]
  | DateTimeEntity => simp [rangeLoop, hkey, hfail]
  | other n => simp [rangeLoop, hkey, hfail]

/-- On a decoded object `ParseNlpData` is the loop started with no intent and
no entity. -/
theorem ParseNlpData_object (parser : witParser) (ParseTime : String → Except Error Time)
    (fields : List (String × Value)) :
    ParseNlpData parser ParseTime (some (.object fields)) =
      rangeLoop parser ParseTime fields none [] := rfl

/-- The entity of a field whose type is an entity type and on which `toEntity`
succeeds. -/
theorem fieldEntity_ok (parser : witParser) (ParseTime : String → Except Error Time)
    (key : String) (value : Value) (dataType : EntityType) (entity : ParsedEntity)
    (hkey : parser.dataTypeMap key = some dataType) (hne : dataType ≠ .IntentEntity)
    (hok : toEntity ParseTime value key dataType = .ok entity) :
    fieldEntity parser ParseTime (key, value) = some entity := by
  cases dataType with
  | IntentEntity => exact absurd rfl hne
  | IntEntity => simp [fieldEntity, hkey, hok]
  | DateTimeEntity => simp [fieldEntity, hkey, hok]
  | other n => simp [fieldEntity, hkey, hok]

/-- Adding a field that is not intent-typed keeps the absence of empty intent
arrays. -/
theorem NoEmptyIntent_insert (parser : witParser) (pre post : List (String × Value))
    (field : String × Value) (h : NoEmptyIntent parser (pre ++ post))
    (hfield : parser.dataTypeMap field.1 = some .IntentEntity → field.2 ≠ .array []) :
    NoEmptyIntent parser (pre ++ field :: post) := by
  intro f hf hty
  rw [List.mem_append, List.mem_cons] at hf
  rcases hf with hf | hf | hf
  · exact h f (List.mem_append_left _ hf) hty
  · subst hf
    exact hfield hty
  · exact h f (List.mem_append_right _ hf) hty

/-- C3 fails as stated: in the payload
`{"nb_persons": [{"value": 3}, {"value": 3, "confidence": 0.87}]}` the first
candidate lacks `confidence` and the second is valid, yet the result of
`ParseNlpData` holds no entity at all. -/
theorem ParseNlpData_malformed_candidate_first :
    intCandidateNoConfidence.get "confidence" = none ∧
      intCandidate.GetFloat64 "confidence" = some ⟨87, -2⟩ ∧
      intCandidate.GetInt64 "value" = some 3 ∧
      ParseNlpData newParser sampleParseTime
        (some (.object [("nb_persons",
          .array [.object intCandidateNoConfidence.Map, .object intCandidate.Map])])) =
        .returned ⟨none, []⟩ :=
  ⟨rfl, rfl, rfl, rfl⟩

/-- C3 as amended: when the integer-typed field holds the two candidates with
the valid one first, the result of `ParseNlpData` holds exactly one integer
entity, built from the valid candidate; with the candidate lacking `confidence`
first, `toEntity` fails with `ErrCouldNotCastValue` and the call ends as if the
field were absent. The other fields hold no integer-typed key and no
intent-typed key with an empty array. -/
theorem ParseNlpData_two_candidates (parser : witParser)
    (ParseTime : String → Except Error Time) (key : String) (valid bad : Object)
    (c : Float64) (v : Int) (pre post : List (String × Value))
    (hkey : parser.dataTypeMap key = some .IntEntity)
    (hc : valid.GetFloat64 "confidence" = some c)
    (hv : valid.GetInt64 "value" = some v)
    (hbad : bad.get "confidence" = none)
    (hothers : ∀ field ∈ pre ++ post, parser.dataTypeMap field.1 ≠ some .IntEntity)
    (hsafe : NoEmptyIntent parser (pre ++ post)) :
    (∃ pd, ParseNlpData parser ParseTime (some (.object
          (pre ++ (key, .array [.object valid.Map, .object bad.Map]) :: post))) =
        .returned pd ∧
        pd.entities.filter (fun e => e.isInt) =
          [NewParsedIntEntity key (float32 c) v ""]) ∧
      toEntity ParseTime (.array [.object bad.Map, .object valid.Map]) key .IntEntity =
        .error (.ErrCouldNotCastValue "confidence" "float64") ∧
      ParseNlpData parser ParseTime (some (.object
          (pre ++ (key, .array [.object bad.Map, .object valid.Map]) :: post))) =
        ParseNlpData parser ParseTime (some (.object (pre ++ post))) := by
  have hbadc : bad.GetFloat64 "confidence" = none := by simp [Object.GetFloat64, hbad]
  have hfail : toEntity ParseTime (.array [.object bad.Map, .object valid.Map]) key
      .IntEntity = .error (.ErrCouldNotCastValue "confidence" "float64") := by
    simp [toEntity, Value.ObjectArray, objectSlice, Value.Object, toEntityLoop, hbadc]
  have hok : toEntity ParseTime (.array [.object valid.Map, .object bad.Map]) key
      .IntEntity = .ok (NewParsedIntEntity key (float32 c) v "") := by
    simp [toEntity, Value.ObjectArray, objectSlice, Value.Object, toEntityLoop, hc, hv]
  refine ⟨?_, hfail, ?_⟩
  · have hall : NoEmptyIntent parser
        (pre ++ (key, .array [.object valid.Map, .object bad.Map]) :: post) :=
      NoEmptyIntent_insert parser pre post _ hsafe (fun hty => by simp [hkey] at hty)
    refine ⟨_, by rw [ParseNlpData_object, rangeLoop_returned _ _ _ _ _ hall], ?_⟩
    have hpre := filterMap_fieldEntity_isInt parser ParseTime pre
      (fun f hf => hothers f (List.mem_append_left _ hf))
    have hpost := filterMap_fieldEntity_isInt parser ParseTime post
      (fun f hf => hothers f (List.mem_append_right _ hf))
    have hent := fieldEntity_ok parser ParseTime key _ .IntEntity _ hkey (by simp) hok
    have hint : (NewParsedIntEntity key (float32 c) v "").isInt = true := rfl
    simp [List.filterMap_append, List.filterMap_cons, hent, List.filter_cons, hpre, hpost,
      hint]
  · rw [ParseNlpData_object, ParseNlpData_object]
    exact rangeLoop_remove parser ParseTime _
      (fun rest intent entities =>
        rangeLoop_skip_entity parser ParseTime key _ .IntEntity _ hkey (by simp) hfail
          rest intent entities) pre post none []

/-- Witness of C3 as amended: the field `nb_persons` of the default map with the
candidates `{"value": 3, "confidence": 0.87}` and `{"value": 3}`, next to an
unknown field. -/
theorem ParseNlpData_two_candidates_witness :
    (∃ pd, ParseNlpData newParser sampleParseTime (some (.object
          ([("msg_id", .string "m1")] ++ ("nb_persons",
            .array [.object intCandidate.Map, .object intCandidateNoConfidence.Map]) ::
            []))) = .returned pd ∧
        pd.entities.filter (fun e => e.isInt) =
          [NewParsedIntEntity "nb_persons" (float32 ⟨87, -2⟩) 3 ""]) ∧
      toEntity sampleParseTime
          (.array [.object intCandidateNoConfidence.Map, .object intCandidate.Map])
          "nb_persons" .IntEntity =
        .error (.ErrCouldNotCastValue "confidence" "float64") ∧
      ParseNlpData newParser sampleParseTime (some (.object
          ([("msg_id", .string "m1")] ++ ("nb_persons",
            .array [.object intCandidateNoConfidence.Map, .object intCandidate.Map]) ::
            []))) =
        ParseNlpData newParser sampleParseTime
          (some (.object ([("msg_id", .string "m1")] ++ []))) :=
  ParseNlpData_two_candidates newParser sampleParseTime "nb_persons" intCandidate
    intCandidateNoConfidence ⟨87, -2⟩ 3 [("msg_id", .string "m1")] [] rfl rfl rfl rfl
    (by simp [newParser, defaultDataTypeMap])
    (by simp [NoEmptyIntent, newParser, defaultDataTypeMap])

/-- C4: for a key mapped to the integer type whose value is an array of objects
with a first candidate holding a numeric `confidence` c and an integer `value`
v, `toEntity` returns the integer entity named after the key with value v,
confidence `float32(c)` and role `""`; visiting the field appends that entity,
and `ParseNlpData` returns a result containing it (the other fields holding no
intent-typed key with an empty array). -/
theorem toEntity_int (parser : witParser) (ParseTime : String → Except Error Time)
    (key : String) (value : Value) (first : Object) (rest : List Object)
    (c : Float64) (v : Int) (pre post : List (String × Value))
    (hkey : parser.dataTypeMap key = some .IntEntity)
    (harr : value.ObjectArray = some (first :: rest))
    (hc : first.GetFloat64 "confidence" = some c)
    (hv : first.GetInt64 "value" = some v)
    (hsafe : NoEmptyIntent parser (pre ++ post)) :
    toEntity ParseTime value key .IntEntity = .ok (.int key (float32 c) v "") ∧
      (∀ more intent entities,
        rangeLoop parser ParseTime ((key, value) :: more) intent entities =
          rangeLoop parser ParseTime more intent
            (entities ++ [.int key (float32 c) v ""])) ∧
      ∃ pd, ParseNlpData parser ParseTime
          (some (.object (pre ++ (key, value) :: post))) = .returned pd ∧
        .int key (float32 c) v "" ∈ pd.entities := by
  have hok : toEntity ParseTime value key .IntEntity = .ok (.int key (float32 c) v "") := by
    simp [toEntity, harr, toEntityLoop, hc, hv, NewParsedIntEntity]
  refine ⟨hok, ?_, ?_⟩
  · intro more intent entities
    simp [rangeLoop, hkey, hok]
  · have hall : NoEmptyIntent parser (pre ++ (key, value) :: post) :=
      NoEmptyIntent_insert parser pre post _ hsafe (fun hty => by simp [hkey] at hty)
    refine ⟨_, by rw [ParseNlpData_object, rangeLoop_returned _ _ _ _ _ hall], ?_⟩
    have hent := fieldEntity_ok parser ParseTime key value .IntEntity _ hkey (by simp) hok
    simp only [List.nil_append, List.mem_filterMap]
    exact ⟨(key, value), by simp, hent⟩

/-- Witness of C4: `{"value": 3, "confidence": 0.87}` under `nb_persons` gives
the integer entity with value 3, confidence `float32(0.87)` and role `""`. -/
theorem toEntity_int_witness :
    toEntity sampleParseTime (.array [.object intCandidate.Map]) "nb_persons" .IntEntity =
        .ok (.int "nb_persons" (float32 ⟨87, -2⟩) 3 "") ∧
      (∀ more intent entities,
        rangeLoop newParser sampleParseTime
            (("nb_persons", .array [.object intCandidate.Map]) :: more) intent entities =
          rangeLoop newParser sampleParseTime more intent
            (entities ++ [.int "nb_persons" (float32 ⟨87, -2⟩) 3 ""])) ∧
      ∃ pd, ParseNlpData newParser sampleParseTime
          (some (.object ([] ++ ("nb_persons", .array [.object intCandidate.Map]) :: []))) =
          .returned pd ∧
        .int "nb_persons" (float32 ⟨87, -2⟩) 3 "" ∈ pd.entities :=
  toEntity_int newParser sampleParseTime "nb_persons" (.array [.object intCandidate.Map])
    intCandidate [] ⟨87, -2⟩ 3 [] [] rfl rfl rfl rfl
    (by simp [NoEmptyIntent])

/-- An entity built by `toEntity` carries the name it was given. -/
theorem toEntity_name (ParseTime : String → Except Error Time) (value : Value)
    (name : String) (dataType : EntityType) (entity : ParsedEntity)
    (h : toEntity ParseTime value name dataType = .ok entity) : entity.name = name := by
  unfold toEntity at h
  cases hoa : value.ObjectArray with
  | none => simp [hoa] at h
  | some object =>
    simp only [hoa] at h
    by_cases hint : dataType = .IntEntity
    · subst hint
      cases object with
      | nil => simp [toEntityLoop] at h
      | cons e rest =>
        simp only [toEntityLoop] at h
        repeat' split at h
        all_goals
          cases h <;> simp [NewParsedIntEntity, ParsedEntity.name]
    · by_cases hdate : dataType = .DateTimeEntity
      · subst hdate
        cases object with
        | nil => simp [toEntityLoop] at h
        | cons e rest =>
          simp only [toEntityLoop] at h
          repeat' split at h
          all_goals
            cases h <;>
              simp [NewParsedDateTimeIntervalEntity, NewParsedSingleDateTimeEntity,
                ParsedEntity.name]
      · obtain ⟨err, herr⟩ :=
          toEntityLoop_unhandled ParseTime name dataType hint hdate object
        rw [herr] at h
        exact absurd h (by simp)

/-- The entity a field contributes is named after the key of the field. -/
theorem fieldEntity_name (parser : witParser) (ParseTime : String → Except Error Time)
    (field : String × Value) (entity : ParsedEntity)
    (h : fieldEntity parser ParseTime field = some entity) : entity.name = field.1 := by
  unfold fieldEntity at h
  cases hd : parser.dataTypeMap field.1 with
  | none => simp [hd] at h
  | some dataType =>
    cases dataType with
    | IntentEntity => simp [hd] at h
    | IntEntity =>
      simp only [hd] at h
      cases he : toEntity ParseTime field.2 field.1 .IntEntity with
      | error err => simp [he] at h
      | ok e =>
        simp only [he, Option.some.injEq] at h
        subst h
        exact toEntity_name ParseTime _ _ _ _ he
    | DateTimeEntity =>
      simp only [hd] at h
      cases he : toEntity ParseTime field.2 field.1 .DateTimeEntity with
      | error err => simp [he] at h
      | ok e =>
        simp only [he, Option.some.injEq] at h
        subst h
        exact toEntity_name ParseTime _ _ _ _ he
    | other n =>
      simp only [hd] at h
      cases he : toEntity ParseTime field.2 field.1 (.other n) with
      | error err => simp [he] at h
      | ok e =>
        simp only [he, Option.some.injEq] at h
        subst h
        exact toEntity_name ParseTime _ _ _ _ he

/-- C5: for a date/time candidate (the first object of the array) with a numeric
`confidence` c, a string `value` that `ParseTime` accepts as the instant t and a
string `grain` g, `toEntity` returns the single date/time entity named after the
key, with instant t and with granularity g taken verbatim. -/
theorem toEntity_single_dateTime (ParseTime : String → Except Error Time)
    (key : String) (value : Value) (first : Object) (rest : List Object)
    (c : Float64) (s : String) (t : Time) (g : String)
    (harr : value.ObjectArray = some (first :: rest))
    (hc : first.GetFloat64 "confidence" = some c)
    (hs : first.GetString "value" = some s)
    (ht : ParseTime s = .ok t)
    (hg : first.GetString "grain" = some g) :
    toEntity ParseTime value key .DateTimeEntity =
      .ok (.singleDateTime key (float32 c) t g "") := by
  simp [toEntity, harr, toEntityLoop, hc, hs, extractDateTimeInformation, ht, hg,
    NewParsedSingleDateTimeEntity]

/-- Witness of C5: value `2024-03-01T10:00:00Z`, grain `hour` and confidence 0.9
under the key `datetime`. -/
theorem toEntity_single_dateTime_witness :
    defaultDataTypeMap "datetime" = some .DateTimeEntity ∧
      toEntity sampleParseTime (.array [.object dateTimeCandidate.Map]) "datetime"
          .DateTimeEntity =
        .ok (.singleDateTime "datetime" (float32 ⟨9, -1⟩) ⟨1709287200⟩ "hour" "") :=
  ⟨rfl, toEntity_single_dateTime sampleParseTime "datetime"
    (.array [.object dateTimeCandidate.Map]) dateTimeCandidate [] ⟨9, -1⟩
    "2024-03-01T10:00:00Z" ⟨1709287200⟩ "hour" rfl rfl rfl rfl rfl⟩

/-- C6: for a date/time candidate (the first object of the array) with a numeric
`confidence`, no `value` field, and objects `from` and `to` each holding a
string `value` that `ParseTime` accepts (as T1, resp. T2) and a string `grain`
(G1, resp. G2), `toEntity` returns the interval entity whose from instant is T1
with granularity G1 and whose to instant is T2 with granularity G2. -/
theorem toEntity_interval (ParseTime : String → Except Error Time)
    (key : String) (value : Value) (first : Object) (rest : List Object)
    (c : Float64) (fromObject toObject : Object) (s1 s2 : String) (t1 t2 : Time)
    (g1 g2 : String)
    (harr : value.ObjectArray = some (first :: rest))
    (hc : first.GetFloat64 "confidence" = some c)
    (hvalue : first.get "value" = none)
    (hfrom : first.GetObject "from" = some fromObject)
    (hs1 : fromObject.GetString "value" = some s1)
    (ht1 : ParseTime s1 = .ok t1)
    (hg1 : fromObject.GetString "grain" = some g1)
    (hto : first.GetObject "to" = some toObject)
    (hs2 : toObject.GetString "value" = some s2)
    (ht2 : ParseTime s2 = .ok t2)
    (hg2 : toObject.GetString "grain" = some g2) :
    toEntity ParseTime value key .DateTimeEntity =
      .ok (.dateTimeInterval key (float32 c) t1 g1 t2 g2 "") := by
  have hnov : first.GetString "value" = none := by simp [Object.GetString, hvalue]
  simp [toEntity, harr, toEntityLoop, hc, hnov, hfrom, hto, extractDateTimeInformation,
    hs1, ht1, hg1, hs2, ht2, hg2, NewParsedDateTimeIntervalEntity]

/-- Witness of C6: the bounds `2024-03-01T10:00:00Z` (grain `hour`) and
`2024-03-02T18:30:00Z` (grain `minute`) under the key `datetime`. -/
theorem toEntity_interval_witness :
    toEntity sampleParseTime (.array [.object intervalCandidate.Map]) "datetime"
        .DateTimeEntity =
      .ok (.dateTimeInterval "datetime" (float32 ⟨9, -1⟩) ⟨1709287200⟩ "hour"
        ⟨1709404200⟩ "minute" "") :=
  toEntity_interval sampleParseTime "datetime" (.array [.object intervalCandidate.Map])
    intervalCandidate [] ⟨9, -1⟩ boundFrom boundTo "2024-03-01T10:00:00Z"
    "2024-03-02T18:30:00Z" ⟨1709287200⟩ ⟨1709404200⟩ "hour" "minute"
    rfl rfl rfl rfl rfl rfl rfl rfl rfl rfl rfl

/-- A field that is not intent-typed assigns no intent. -/
theorem fieldIntent_none (parser : witParser) (field : String × Value)
    (h : parser.dataTypeMap field.1 ≠ some .IntentEntity) :
    fieldIntent parser field = none := by
  unfold fieldIntent
  cases hd : parser.dataTypeMap field.1 with
  | none => rfl
  | some dataType =>
    cases dataType with
    | IntentEntity => exact absurd hd h
    | IntEntity => rfl
    | DateTimeEntity => rfl
    | other n => rfl

/-- An intent-typed field contributes no entity. -/
theorem fieldEntity_intent (parser : witParser) (ParseTime : String → Except Error Time)
    (field : String × Value) (h : parser.dataTypeMap field.1 = some .IntentEntity) :
    fieldEntity parser ParseTime field = none := by
  simp [fieldEntity, h]

/-- Fields that assign no intent leave the variable `intent` unchanged. -/
theorem lastIntent_unchanged (parser : witParser) (fields : List (String × Value))
    (intent : Option ParsedIntent)
    (h : ∀ field ∈ fields, fieldIntent parser field = none) :
    lastIntent parser fields intent = intent := by
  induction fields generalizing intent with
  | nil => rfl
  | cons field rest ih =>
    have hf := h field (List.mem_cons_self _ _)
    simp only [lastIntent, hf]
    exact ih intent (fun f hf => h f (List.mem_cons_of_mem _ hf))

/-- The variable `intent` after visiting two sequences of fields in a row. -/
theorem lastIntent_append (parser : witParser) (pre post : List (String × Value))
    (intent : Option ParsedIntent) :
    lastIntent parser (pre ++ post) intent =
      lastIntent parser post (lastIntent parser pre intent) := by
  induction pre generalizing intent with
  | nil => rfl
  | cons field rest ih =>
    simp only [List.cons_append, lastIntent]
    cases fieldIntent parser field with
    | none => exact ih intent
    | some i => exact ih (some i)

/-- C7: for a date/time candidate (the first object of the array) with a numeric
`confidence` and no `value`, `toEntity` fails with `ErrMissingKey "from"` when
`from` is absent, and with `ErrMissingKey "to"` when `from` is well formed and
`to` is absent. `ParseNlpData` then ends exactly as on the payload without that
key; it returns a `ParsedData` (nil error) holding no entity named after the
key, the other fields having distinct keys and no intent-typed key with an
empty array. -/
theorem toEntity_missing_bound (parser : witParser)
    (ParseTime : String → Except Error Time) (key : String) (value : Value)
    (first : Object) (rest : List Object) (c : Float64) (missing : String)
    (pre post : List (String × Value))
    (hkey : parser.dataTypeMap key = some .DateTimeEntity)
    (harr : value.ObjectArray = some (first :: rest))
    (hc : first.GetFloat64 "confidence" = some c)
    (hvalue : first.get "value" = none)
    (hmiss : (missing = "from" ∧ first.get "from" = none) ∨
      (missing = "to" ∧ first.get "to" = none ∧
        ∃ fromObject s t g, first.GetObject "from" = some fromObject ∧
          fromObject.GetString "value" = some s ∧ ParseTime s = .ok t ∧
          fromObject.GetString "grain" = some g))
    (hsafe : NoEmptyIntent parser (pre ++ post))
    (hfresh : ∀ field ∈ pre ++ post, field.1 ≠ key) :
    toEntity ParseTime value key .DateTimeEntity = .error (.ErrMissingKey missing) ∧
      ParseNlpData parser ParseTime (some (.object (pre ++ (key, value) :: post))) =
        ParseNlpData parser ParseTime (some (.object (pre ++ post))) ∧
      ∃ pd, ParseNlpData parser ParseTime
          (some (.object (pre ++ (key, value) :: post))) = .returned pd ∧
        ∀ entity ∈ pd.entities, entity.name ≠ key := by
  have hnov : first.GetString "value" = none := by simp [Object.GetString, hvalue]
  have hfail : toEntity ParseTime value key .DateTimeEntity =
      .error (.ErrMissingKey missing) := by
    rcases hmiss with ⟨hm, hfrom⟩ | ⟨hm, hto, fromObject, s, t, g, hfrom, hs, ht, hg⟩
    · subst hm
      have hfromo : first.GetObject "from" = none := by simp [Object.GetObject, hfrom]
      simp [toEntity, harr, toEntityLoop, hc, hnov, hfromo]
    · subst hm
      have htoo : first.GetObject "to" = none := by simp [Object.GetObject, hto]
      simp [toEntity, harr, toEntityLoop, hc, hnov, hfrom, extractDateTimeInformation,
        hs, ht, hg, htoo]
  have hsame : ParseNlpData parser ParseTime
      (some (.object (pre ++ (key, value) :: post))) =
      ParseNlpData parser ParseTime (some (.object (pre ++ post))) := by
    rw [ParseNlpData_object, ParseNlpData_object]
    exact rangeLoop_remove parser ParseTime _
      (fun more intent entities =>
        rangeLoop_skip_entity parser ParseTime key value .DateTimeEntity _ hkey (by simp)
          hfail more intent entities) pre post none []
  refine ⟨hfail, hsame, ?_⟩
  rw [hsame, ParseNlpData_object, rangeLoop_returned _ _ _ _ _ hsafe]
  refine ⟨_, rfl, ?_⟩
  intro entity hmem
  simp only [List.nil_append, List.mem_filterMap] at hmem
  obtain ⟨field, hfield, hent⟩ := hmem
  rw [fieldEntity_name parser ParseTime field entity hent]
  exact hfresh field hfield

/-- Witness of C7: `datetime` holds `{"confidence": 0.9, "from": ...}` without
`to`, next to a valid `nb_persons` field. -/
theorem toEntity_missing_bound_witness :
    toEntity sampleParseTime (.array [.object intervalCandidateNoTo.Map]) "datetime"
        .DateTimeEntity = .error (.ErrMissingKey "to") ∧
      ParseNlpData newParser sampleParseTime (some (.object
          ([("nb_persons", .array [.object intCandidate.Map])] ++
            ("datetime", .array [.object intervalCandidateNoTo.Map]) :: []))) =
        ParseNlpData newParser sampleParseTime (some (.object
          ([("nb_persons", .array [.object intCandidate.Map])] ++ []))) ∧
      ∃ pd, ParseNlpData newParser sampleParseTime (some (.object
          ([("nb_persons", .array [.object intCandidate.Map])] ++
            ("datetime", .array [.object intervalCandidateNoTo.Map]) :: []))) =
          .returned pd ∧
        ∀ entity ∈ pd.entities, entity.name ≠ "datetime" :=
  toEntity_missing_bound newParser sampleParseTime "datetime"
    (.array [.object intervalCandidateNoTo.Map]) intervalCandidateNoTo [] ⟨9, -1⟩ "to"
    [("nb_persons", .array [.object intCandidate.Map])] [] rfl rfl rfl rfl
    (Or.inr ⟨rfl, rfl, boundFrom, "2024-03-01T10:00:00Z", ⟨1709287200⟩, "hour",
      rfl, rfl, rfl, rfl⟩)
    (by simp [NoEmptyIntent, newParser, defaultDataTypeMap])
    (by simp)

/-- C8: when the only intent-typed field of the payload holds a non-empty array
of objects, the intent of the result is the string `value` of the first element
of the array; when that element has no string `value`, `toIntent` fails with
`ErrMissingKey "value"` and the result has no intent. In both cases
`ParseNlpData` returns a `ParsedData` (nil error) whose entities are those
returned for the payload without the intent field. -/
theorem toIntent_first (parser : witParser) (ParseTime : String → Except Error Time)
    (key : String) (value : Value) (first : Object) (rest : List Object)
    (pre post : List (String × Value))
    (hkey : parser.dataTypeMap key = some .IntentEntity)
    (harr : value.ObjectArray = some (first :: rest))
    (hothers : ∀ field ∈ pre ++ post, parser.dataTypeMap field.1 ≠ some .IntentEntity) :
    ∃ entities,
      ParseNlpData parser ParseTime (some (.object (pre ++ post))) =
        .returned ⟨none, entities⟩ ∧
      (∀ s, first.GetString "value" = some s →
        toIntent value = .returned ⟨s⟩ ∧
        ParseNlpData parser ParseTime (some (.object (pre ++ (key, value) :: post))) =
          .returned ⟨some ⟨s⟩, entities⟩) ∧
      (first.GetString "value" = none →
        toIntent value = .failed (.ErrMissingKey "value") ∧
        ParseNlpData parser ParseTime (some (.object (pre ++ (key, value) :: post))) =
          .returned ⟨none, entities⟩) := by
  have hsafe : NoEmptyIntent parser (pre ++ post) :=
    fun f hf hty => absurd hty (hothers f hf)
  have hne : value ≠ .array [] := by
    intro h
    subst h
    simp [Value.ObjectArray, objectSlice] at harr
  have hall : NoEmptyIntent parser (pre ++ (key, value) :: post) :=
    NoEmptyIntent_insert parser pre post _ hsafe (fun _ => hne)
  have hnone : ∀ field ∈ pre ++ post, fieldIntent parser field = none :=
    fun f hf => fieldIntent_none parser f (hothers f hf)
  have hpre : ∀ i, lastIntent parser pre i = i := fun i =>
    lastIntent_unchanged parser pre i (fun f hf => hnone f (List.mem_append_left _ hf))
  have hpost : ∀ i, lastIntent parser post i = i := fun i =>
    lastIntent_unchanged parser post i (fun f hf => hnone f (List.mem_append_right _ hf))
  have hent : fieldEntity parser ParseTime (key, value) = none :=
    fieldEntity_intent parser ParseTime (key, value) hkey
  refine ⟨(pre ++ post).filterMap (fieldEntity parser ParseTime), ?_, ?_, ?_⟩
  · rw [ParseNlpData_object, rangeLoop_returned _ _ _ _ _ hsafe,
      lastIntent_unchanged parser _ _ hnone]
    simp
  · intro s hs
    have hti : toIntent value = .returned ⟨s⟩ := by
      simp [toIntent, harr, hs, NewParsedIntent]
    refine ⟨hti, ?_⟩
    rw [ParseNlpData_object, rangeLoop_returned _ _ _ _ _ hall, lastIntent_append]
    have hfi : fieldIntent parser (key, value) = some ⟨s⟩ := by
      simp [fieldIntent, hkey, hti]
    simp [lastIntent, hfi, hpre, hpost, List.filterMap_append, List.filterMap_cons, hent]
  · intro hs
    have hti : toIntent value = .failed (.ErrMissingKey "value") := by
      simp [toIntent, harr, hs]
    refine ⟨hti, ?_⟩
    rw [ParseNlpData_object, rangeLoop_returned _ _ _ _ _ hall, lastIntent_append]
    have hfi : fieldIntent parser (key, value) = none := by
      simp [fieldIntent, hkey, hti]
    simp [lastIntent, hfi, hpre, hpost, List.filterMap_append, List.filterMap_cons, hent]

/-- Witness of C8: `intent` holds the candidates `book_table` and `greet`, next
to a valid `nb_persons` field. -/
theorem toIntent_first_witness :
    ∃ entities,
      ParseNlpData newParser sampleParseTime (some (.object ([nbPersonsField] ++ []))) =
        .returned ⟨none, entities⟩ ∧
      (∀ s, intentCandidate.GetString "value" = some s →
        toIntent (.array [.object intentCandidate.Map, .object intentCandidateOther.Map]) =
          .returned ⟨s⟩ ∧
        ParseNlpData newParser sampleParseTime (some (.object ([nbPersonsField] ++
            ("intent", .array [.object intentCandidate.Map,
              .object intentCandidateOther.Map]) :: []))) =
          .returned ⟨some ⟨s⟩, entities⟩) ∧
      (intentCandidate.GetString "value" = none →
        toIntent (.array [.object intentCandidate.Map, .object intentCandidateOther.Map]) =
          .failed (.ErrMissingKey "value") ∧
        ParseNlpData newParser sampleParseTime (some (.object ([nbPersonsField] ++
            ("intent", .array [.object intentCandidate.Map,
              .object intentCandidateOther.Map]) :: []))) =
          .returned ⟨none, entities⟩) :=
  toIntent_first newParser sampleParseTime "intent"
    (.array [.object intentCandidate.Map, .object intentCandidateOther.Map])
    intentCandidate [intentCandidateOther] [nbPersonsField] [] rfl rfl
    (by simp [nbPersonsField, newParser, defaultDataTypeMap])

/-- Fields whose key is absent from the data type map can be dropped before the
loop runs. -/
theorem rangeLoop_filter_known (parser : witParser)
    (ParseTime : String → Except Error Time) (fields : List (String × Value))
    (intent : Option ParsedIntent) (entities : List ParsedEntity) :
    rangeLoop parser ParseTime (fields.filter (knownKey parser)) intent entities =
      rangeLoop parser ParseTime fields intent entities := by
  induction fields generalizing intent entities with
  | nil => rfl
  | cons field rest ih =>
    obtain ⟨key, value⟩ := field
    cases hd : parser.dataTypeMap key with
    | none =>
      have hk : knownKey parser (key, value) = false := by simp [knownKey, hd]
      simp only [List.filter_cons, hk, rangeLoop, hd]
      simpa using ih intent entities
    | some dataType =>
      have hk : knownKey parser (key, value) = true := by simp [knownKey, hd]
      simp only [List.filter_cons, hk, rangeLoop, hd, if_true]
      cases dataType with
      | IntentEntity =>
        cases hi : toIntent value with
        | panicked => simp
        | failed err => simpa using ih intent entities
        | returned i => simpa using ih (some i) entities
      | IntEntity =>
        cases he : toEntity ParseTime value key .IntEntity with
        | error err => simpa [he] using ih intent entities
        | ok entity => simpa [he] using ih intent (entities ++ [entity])
      | DateTimeEntity =>
        cases he : toEntity ParseTime value key .DateTimeEntity with
        | error err => simpa [he] using ih intent entities
        | ok entity => simpa [he] using ih intent (entities ++ [entity])
      | other n =>
        cases he : toEntity ParseTime value key (.other n) with
        | error err => simpa [he] using ih intent entities
        | ok entity => simpa [he] using ih intent (entities ++ [entity])

/-- C9: on every well-formed JSON object `ParseNlpData` ends exactly as on the
object with every key absent from the data type map removed; on an object all
of whose keys are absent from the map it returns a `ParsedData` with no intent
and no entity (nil error). -/
theorem ParseNlpData_unknown_keys (parser : witParser)
    (ParseTime : String → Except Error Time) (fields : List (String × Value)) :
    ParseNlpData parser ParseTime (some (.object fields)) =
        ParseNlpData parser ParseTime
          (some (.object (fields.filter (fun field =>
            (parser.dataTypeMap field.1).isSome)))) ∧
      ((∀ field ∈ fields, parser.dataTypeMap field.1 = none) →
        ParseNlpData parser ParseTime (some (.object fields)) =
          .returned ⟨none, []⟩) := by
  have hfilter : ParseNlpData parser ParseTime (some (.object fields)) =
      ParseNlpData parser ParseTime
        (some (.object (fields.filter (fun field =>
          (parser.dataTypeMap field.1).isSome)))) := by
    rw [ParseNlpData_object, ParseNlpData_object]
    exact (rangeLoop_filter_known parser ParseTime fields none []).symm
  refine ⟨hfilter, ?_⟩
  intro hnone
  have hempty : fields.filter (fun field => (parser.dataTypeMap field.1).isSome) = [] := by
    rw [List.filter_eq_nil_iff]
    intro field hmem
    simp [hnone field hmem]
  rw [hfilter, hempty]
  rfl

/-- Witness of C9: the object `{"msg_id": "m1", "_text": "hello"}` holds only
keys that the default map does not know. -/
theorem ParseNlpData_unknown_keys_witness :
    ParseNlpData newParser sampleParseTime
        (some (.object [("msg_id", .string "m1"), ("_text", .string "hello")])) =
      .returned ⟨none, []⟩ :=
  (ParseNlpData_unknown_keys newParser sampleParseTime
    [("msg_id", .string "m1"), ("_text", .string "hello")]).2
    (by simp [newParser, defaultDataTypeMap])

/-- C10 fails as stated: the payload
`{"datetime": [...], "nb_persons": [...]}` decodes to a Go map with two entries,
and `range` may visit them in either order. Visiting `datetime` first gives the
date/time entity before the integer entity; visiting `nb_persons` first gives
the integer entity before the date/time entity, against the order of the
payload, so two calls on the same bytes can return different entity sequences. -/
theorem ParseNlpData_order_follows_visit :
    [nbPersonsField, dateTimeField].Perm [dateTimeField, nbPersonsField] ∧
      ParseNlpData newParser sampleParseTime
          (some (.object [dateTimeField, nbPersonsField])) =
        .returned ⟨none,
          [.singleDateTime "datetime" (float32 ⟨9, -1⟩) ⟨1709287200⟩ "hour" "",
            .int "nb_persons" (float32 ⟨87, -2⟩) 3 ""]⟩ ∧
      ParseNlpData newParser sampleParseTime
          (some (.object [nbPersonsField, dateTimeField])) =
        .returned ⟨none,
          [.int "nb_persons" (float32 ⟨87, -2⟩) 3 "",
            .singleDateTime "datetime" (float32 ⟨9, -1⟩) ⟨1709287200⟩ "hour" ""]⟩ :=
  ⟨List.Perm.swap _ _ _, rfl, rfl⟩

/-- C10 as amended: on a well-formed JSON object without an intent-typed key
holding an empty array, `ParseNlpData` returns the entities of the fields in the
order in which the `range` loop visits the fields of the decoded map; for two
visiting orders of the same map the two entity sequences are permutations of
each other. -/
theorem ParseNlpData_entities_visit_order (parser : witParser)
    (ParseTime : String → Except Error Time) (visited again : List (String × Value))
    (hperm : visited.Perm again) (hsafe : NoEmptyIntent parser visited) :
    ∃ pd pd2,
      ParseNlpData parser ParseTime (some (.object visited)) = .returned pd ∧
      ParseNlpData parser ParseTime (some (.object again)) = .returned pd2 ∧
      pd.entities = visited.filterMap (fieldEntity parser ParseTime) ∧
      pd2.entities = again.filterMap (fieldEntity parser ParseTime) ∧
      pd.entities.Perm pd2.entities := by
  have hsafe2 : NoEmptyIntent parser again :=
    fun f hf hty => hsafe f (hperm.mem_iff.2 hf) hty
  refine ⟨⟨lastIntent parser visited none,
      [] ++ visited.filterMap (fieldEntity parser ParseTime)⟩,
    ⟨lastIntent parser again none,
      [] ++ again.filterMap (fieldEntity parser ParseTime)⟩, ?_, ?_, ?_, ?_, ?_⟩
  · rw [ParseNlpData_object, rangeLoop_returned _ _ _ _ _ hsafe]
  · rw [ParseNlpData_object, rangeLoop_returned _ _ _ _ _ hsafe2]
  · simp
  · simp
  · simpa using hperm.filterMap (fieldEntity parser ParseTime)

/-- Witness of C10 as amended: the two visiting orders of the map with the
fields `datetime` and `nb_persons`. -/
theorem ParseNlpData_entities_visit_order_witness :
    ∃ pd pd2,
      ParseNlpData newParser sampleParseTime
          (some (.object [dateTimeField, nbPersonsField])) = .returned pd ∧
      ParseNlpData newParser sampleParseTime
          (some (.object [nbPersonsField, dateTimeField])) = .returned pd2 ∧
      pd.entities =
        [dateTimeField, nbPersonsField].filterMap (fieldEntity newParser sampleParseTime) ∧
      pd2.entities =
        [nbPersonsField, dateTimeField].filterMap (fieldEntity newParser sampleParseTime) ∧
      pd.entities.Perm pd2.entities :=
  ParseNlpData_entities_visit_order newParser sampleParseTime
    [dateTimeField, nbPersonsField] [nbPersonsField, dateTimeField]
    (List.Perm.swap _ _ _)
    (by simp [NoEmptyIntent, dateTimeField, nbPersonsField, newParser, defaultDataTypeMap])

end Wit

namespace Core

/-- No call of the sequence used the name exactly when `mostRecent` finds none. -/
theorem mostRecent_eq_none {Builder : Type} (name : String)
    (calls : List (String × Builder)) :
    mostRecent name calls = none ↔ ∀ call ∈ calls, call.1 ≠ name := by
  induction calls with
  | nil => simp [mostRecent]
  | cons call later ih =>
    cases hm : mostRecent name later with
    | some builder =>
      have hno : ¬ ∀ c ∈ later, c.1 ≠ name := fun hall => by
        rw [ih.2 hall] at hm
        exact absurd hm (by simp)
      constructor
      · intro h
        simp [mostRecent, hm] at h
      · intro h
        exact absurd (fun c hc => h c (List.mem_cons_of_mem _ hc)) hno
    | none =>
      have hall := ih.1 hm
      constructor
      · intro h c hc
        rw [List.mem_cons] at hc
        rcases hc with hc | hc
        · subst hc
          intro heq
          simp [mostRecent, hm, heq] at h
        · exact hall c hc
      · intro h
        have hc : call.1 ≠ name := h call (List.mem_cons_self _ _)
        simp [mostRecent, hm, hc]

/-- The entry of the map `facebookApiBuilders` after further registration calls. -/
theorem facebookApiBuilders_foldl {FacebookApi BuilderConf : Type}
    (calls : List (String × FacebookApiBuilder FacebookApi BuilderConf))
    (st : ApiState FacebookApi BuilderConf) (name : String) :
    (calls.foldl (fun st call => RegisterFacebookApiBuilder st call.1 call.2)
        st).facebookApiBuilders name =
      match mostRecent name calls with
      | some builder => some builder
      | none => st.facebookApiBuilders name := by
  induction calls generalizing st with
  | nil => simp [mostRecent]
  | cons call later ih =>
    simp only [List.foldl_cons, mostRecent]
    rw [ih]
    cases hm : mostRecent name later with
    | some builder => rfl
    | none =>
      by_cases hc : call.1 = name
      · simp [RegisterFacebookApiBuilder, hc]
      · have hc2 : ¬ name = call.1 := fun h => hc h.symm
        simp [RegisterFacebookApiBuilder, hc, hc2]

/-- The entry of the map `repositoryBuilders` after further registration calls. -/
theorem repositoryBuilders_foldl {Repository Conf : Type}
    (calls : List (String × RepositoryBuilder Repository Conf))
    (st : BotState Repository Conf) (name : String) :
    (calls.foldl (fun st call => RegisterRepositoryBuilder st call.1 call.2)
        st).repositoryBuilders name =
      match mostRecent name calls with
      | some builder => some builder
      | none => st.repositoryBuilders name := by
  induction calls generalizing st with
  | nil => simp [mostRecent]
  | cons call later ih =>
    simp only [List.foldl_cons, mostRecent]
    rw [ih]
    cases hm : mostRecent name later with
    | some builder => rfl
    | none =>
      by_cases hc : call.1 = name
      · simp [RegisterRepositoryBuilder, hc]
      · have hc2 : ¬ name = call.1 := fun h => hc h.symm
        simp [RegisterRepositoryBuilder, hc, hc2]

/-- The pair `NewFacebookApi` returns, from the entry of the map. -/
theorem NewFacebookApi_of_entry {FacebookApi BuilderConf : Type}
    (st : ApiState FacebookApi BuilderConf) (name : String) (conf : BuilderConf)
    (builder : FacebookApiBuilder FacebookApi BuilderConf)
    (h : st.facebookApiBuilders name = some builder) :
    NewFacebookApi st name conf = handedBack (builder conf) := by
  unfold NewFacebookApi handedBack
  rw [h]

/-- The pair `NewRepository` returns, from the entry of the map. -/
theorem NewRepository_of_entry {Repository Conf : Type}
    (st : BotState Repository Conf) (name : String) (conf : Conf)
    (builder : RepositoryBuilder Repository Conf)
    (h : st.repositoryBuilders name = some builder) :
    NewRepository st name conf = handedBack (builder conf) := by
  unfold NewRepository handedBack
  rw [h]

/-- What `NewFacebookApi` returns after a sequence of registration calls. -/
theorem NewFacebookApi_after_calls {FacebookApi BuilderConf : Type}
    (calls : List (String × FacebookApiBuilder FacebookApi BuilderConf))
    (name : String) (conf : BuilderConf) :
    ((∀ call ∈ calls, call.1 ≠ name) →
        NewFacebookApi (registerFacebookApiBuilders calls) name conf =
          (none, some .ErrFacebookApiNotFound)) ∧
      (∀ builder, mostRecent name calls = some builder →
        NewFacebookApi (registerFacebookApiBuilders calls) name conf =
          handedBack (builder conf)) ∧
      ((∃ call ∈ calls, call.1 = name) → ∃ builder, mostRecent name calls = some builder) ∧
      (∀ first second,
        NewFacebookApi (RegisterFacebookApiBuilder
            (RegisterFacebookApiBuilder (registerFacebookApiBuilders calls) name first)
            name second) name conf = handedBack (second conf)) ∧
      (NewFacebookApi (registerFacebookApiBuilders calls) name conf =
          (none, some .ErrFacebookApiNotFound) →
        (∀ call ∈ calls, call.1 ≠ name) ∨
          ∃ builder, mostRecent name calls = some builder ∧
            (builder conf).2 = some .ErrFacebookApiNotFound) := by
  have hentry : (registerFacebookApiBuilders calls).facebookApiBuilders name =
      match mostRecent name calls with
      | some builder => some builder
      | none => (apiStart FacebookApi BuilderConf).facebookApiBuilders name :=
    facebookApiBuilders_foldl calls (apiStart FacebookApi BuilderConf) name
  refine ⟨?_, ?_, ?_, ?_, ?_⟩
  · intro hnone
    have hm := (mostRecent_eq_none name calls).2 hnone
    have h0 : (registerFacebookApiBuilders calls).facebookApiBuilders name = none := by
      rw [hentry, hm]
      rfl
    simp [NewFacebookApi, h0]
  · intro builder hm
    have h1 : (registerFacebookApiBuilders calls).facebookApiBuilders name = some builder := by
      rw [hentry, hm]
    exact NewFacebookApi_of_entry _ name conf builder h1
  · rintro ⟨call, hmem, hname⟩
    cases hm : mostRecent name calls with
    | some builder => exact ⟨builder, rfl⟩
    | none => exact absurd hname ((mostRecent_eq_none name calls).1 hm call hmem)
  · intro first second
    exact NewFacebookApi_of_entry _ name conf second (by simp [RegisterFacebookApiBuilder])
  · intro hres
    cases hm : mostRecent name calls with
    | none => exact Or.inl ((mostRecent_eq_none name calls).1 hm)
    | some builder =>
      right
      refine ⟨builder, rfl, ?_⟩
      have h1 : (registerFacebookApiBuilders calls).facebookApiBuilders name = some builder := by
        rw [hentry, hm]
      rw [NewFacebookApi_of_entry _ name conf builder h1] at hres
      unfold handedBack at hres
      rcases hb : builder conf with ⟨inst, err⟩
      rw [hb] at hres
      cases err with
      | none => simp at hres
      | some e => simpa using hres

/-- What `NewRepository` returns after a sequence of registration calls. -/
theorem NewRepository_after_calls {Repository Conf : Type}
    (calls : List (String × RepositoryBuilder Repository Conf))
    (name : String) (conf : Conf) :
    ((∀ call ∈ calls, call.1 ≠ name) →
        NewRepository (registerRepositoryBuilders calls) name conf =
          (none, some .ErrRepositoryNotFound)) ∧
      (∀ builder, mostRecent name calls = some builder →
        NewRepository (registerRepositoryBuilders calls) name conf =
          handedBack (builder conf)) ∧
      ((∃ call ∈ calls, call.1 = name) → ∃ builder, mostRecent name calls = some builder) ∧
      (∀ first second,
        NewRepository (RegisterRepositoryBuilder
            (RegisterRepositoryBuilder (registerRepositoryBuilders calls) name first)
            name second) name conf = handedBack (second conf)) ∧
      (NewRepository (registerRepositoryBuilders calls) name conf =
          (none, some .ErrRepositoryNotFound) →
        (∀ call ∈ calls, call.1 ≠ name) ∨
          ∃ builder, mostRecent name calls = some builder ∧
            (builder conf).2 = some .ErrRepositoryNotFound) := by
  have hentry : (registerRepositoryBuilders calls).repositoryBuilders name =
      match mostRecent name calls with
      | some builder => some builder
      | none => (botStart Repository Conf).repositoryBuilders name :=
    repositoryBuilders_foldl calls (botStart Repository Conf) name
  refine ⟨?_, ?_, ?_, ?_, ?_⟩
  · intro hnone
    have hm := (mostRecent_eq_none name calls).2 hnone
    have h0 : (registerRepositoryBuilders calls).repositoryBuilders name = none := by
      rw [hentry, hm]
      rfl
    simp [NewRepository, h0]
  · intro builder hm
    have h1 : (registerRepositoryBuilders calls).repositoryBuilders name = some builder := by
      rw [hentry, hm]
    exact NewRepository_of_entry _ name conf builder h1
  · rintro ⟨call, hmem, hname⟩
    cases hm : mostRecent name calls with
    | some builder => exact ⟨builder, rfl⟩
    | none => exact absurd hname ((mostRecent_eq_none name calls).1 hm call hmem)
  · intro first second
    exact NewRepository_of_entry _ name conf second (by simp [RegisterRepositoryBuilder])
  · intro hres
    cases hm : mostRecent name calls with
    | none => exact Or.inl ((mostRecent_eq_none name calls).1 hm)
    | some builder =>
      right
      refine ⟨builder, rfl, ?_⟩
      have h1 : (registerRepositoryBuilders calls).repositoryBuilders name = some builder := by
        rw [hentry, hm]
      rw [NewRepository_of_entry _ name conf builder h1] at hres
      unfold handedBack at hres
      rcases hb : builder conf with ⟨inst, err⟩
      rw [hb] at hres
      cases err with
      | none => simp at hres
      | some e => simpa using hres

/-- C11 fails as stated: after the single call
`RegisterFacebookApiBuilder("fb", notFoundBuilder)` a builder is registered
under `fb`, yet `NewFacebookApi("fb", conf)` returns a nil instance with
`ErrFacebookApiNotFound`, the error of the builder itself. -/
theorem NewFacebookApi_not_found_from_builder :
    (∃ call ∈ [("fb", notFoundBuilder)], call.1 = "fb") ∧
      NewFacebookApi (registerFacebookApiBuilders [("fb", notFoundBuilder)]) "fb" () =
        (none, some .ErrFacebookApiNotFound) :=
  ⟨⟨("fb", notFoundBuilder), by simp, rfl⟩, rfl⟩

/-- C11 as amended: after any sequence of registration calls, `NewFacebookApi`
(resp. `NewRepository`) returns a nil instance with `ErrFacebookApiNotFound`
(resp. `ErrRepositoryNotFound`) when no call used the name; when some call did,
it returns what the builder of the most recent such call returns on the
configuration, the instance with a nil error or a nil instance with the error
of the builder unchanged; it returns the not-found error only when no call
used the name or the builder itself returned that error. Registering a name
twice in a row leaves the second builder in use. -/
theorem registry_last_write_wins {FacebookApi BuilderConf Repository Conf : Type}
    (apiCalls : List (String × FacebookApiBuilder FacebookApi BuilderConf))
    (botCalls : List (String × RepositoryBuilder Repository Conf))
    (name : String) (apiConf : BuilderConf) (botConf : Conf) :
    (((∀ call ∈ apiCalls, call.1 ≠ name) →
        NewFacebookApi (registerFacebookApiBuilders apiCalls) name apiConf =
          (none, some .ErrFacebookApiNotFound)) ∧
      (∀ builder, mostRecent name apiCalls = some builder →
        NewFacebookApi (registerFacebookApiBuilders apiCalls) name apiConf =
          handedBack (builder apiConf)) ∧
      ((∃ call ∈ apiCalls, call.1 = name) →
        ∃ builder, mostRecent name apiCalls = some builder) ∧
      (∀ first second,
        NewFacebookApi (RegisterFacebookApiBuilder
            (RegisterFacebookApiBuilder (registerFacebookApiBuilders apiCalls) name first)
            name second) name apiConf = handedBack (second apiConf)) ∧
      (NewFacebookApi (registerFacebookApiBuilders apiCalls) name apiConf =
          (none, some .ErrFacebookApiNotFound) →
        (∀ call ∈ apiCalls, call.1 ≠ name) ∨
          ∃ builder, mostRecent name apiCalls = some builder ∧
            (builder apiConf).2 = some .ErrFacebookApiNotFound)) ∧
    (((∀ call ∈ botCalls, call.1 ≠ name) →
        NewRepository (registerRepositoryBuilders botCalls) name botConf =
          (none, some .ErrRepositoryNotFound)) ∧
      (∀ builder, mostRecent name botCalls = some builder →
        NewRepository (registerRepositoryBuilders botCalls) name botConf =
          handedBack (builder botConf)) ∧
      ((∃ call ∈ botCalls, call.1 = name) →
        ∃ builder, mostRecent name botCalls = some builder) ∧
      (∀ first second,
        NewRepository (RegisterRepositoryBuilder
            (RegisterRepositoryBuilder (registerRepositoryBuilders botCalls) name first)
            name second) name botConf = handedBack (second botConf)) ∧
      (NewRepository (registerRepositoryBuilders botCalls) name botConf =
          (none, some .ErrRepositoryNotFound) →
        (∀ call ∈ botCalls, call.1 ≠ name) ∨
          ∃ builder, mostRecent name botCalls = some builder ∧
            (builder botConf).2 = some .ErrRepositoryNotFound)) :=
  ⟨NewFacebookApi_after_calls apiCalls name apiConf,
    NewRepository_after_calls botCalls name botConf⟩

/-- Witness of C11 as amended: after registering `firstBuilder` under `fb`,
`failingBuilder` under `other` and `secondBuilder` under `fb`, the name `fb`
gives the instance of `secondBuilder`; in package `bot`, after registering
`firstBuilder` under `mongo`, the name `fb` is not found. -/
theorem registry_last_write_wins_witness :
    NewFacebookApi (registerFacebookApiBuilders
        [("fb", firstBuilder), ("other", failingBuilder), ("fb", secondBuilder)])
        "fb" () = (some "second", none) ∧
      NewRepository (registerRepositoryBuilders [("mongo", firstBuilder)]) "fb" () =
        (none, some .ErrRepositoryNotFound) :=
  ⟨(registry_last_write_wins
      [("fb", firstBuilder), ("other", failingBuilder), ("fb", secondBuilder)]
      [("mongo", firstBuilder)] "fb" () ()).1.2.1 secondBuilder rfl,
    (registry_last_write_wins
      [("fb", firstBuilder), ("other", failingBuilder), ("fb", secondBuilder)]
      [("mongo", firstBuilder)] "fb" () ()).2.1 (by simp)⟩

end Core

namespace Wit

/-- What a successful `extractDateTimeInformation` read from the object. -/
theorem extractDateTimeInformation_ok (ParseTime : String → Except Error Time)
    (object : Object) (t : Time) (g : DateTimeGranularity)
    (h : extractDateTimeInformation ParseTime object = .ok (t, g)) :
    ∃ s, object.GetString "value" = some s ∧ ParseTime s = .ok t ∧
      object.GetString "grain" = some g := by
  unfold extractDateTimeInformation at h
  cases hs : object.GetString "value" with
  | none => simp [hs] at h
  | some s =>
    simp only [hs] at h
    cases ht : ParseTime s with
    | error err => simp [ht] at h
    | ok t2 =>
      simp only [ht] at h
      cases hg : object.GetString "grain" with
      | none => simp [hg] at h
      | some g2 =>
        simp only [hg, Except.ok.injEq, Prod.mk.injEq] at h
        obtain ⟨h1, h2⟩ := h
        subst h1
        subst h2
        exact ⟨s, rfl, ht, rfl⟩

/-- An entity built by `toEntity` comes from the first candidate of the array,
which provides every sub-field the entity holds; the type is the integer or
the date/time type. -/
theorem toEntity_ok_inv (ParseTime : String → Except Error Time) (value : Value)
    (name : String) (dataType : EntityType) (entity : ParsedEntity)
    (h : toEntity ParseTime value name dataType = .ok entity) :
    ∃ first rest, value.ObjectArray = some (first :: rest) ∧
      FullyExtracted ParseTime first entity ∧
      (dataType = .IntEntity ∨ dataType = .DateTimeEntity) := by
  unfold toEntity at h
  cases hoa : value.ObjectArray with
  | none => simp [hoa] at h
  | some object =>
    simp only [hoa] at h
    by_cases hint : dataType = .IntEntity
    · subst hint
      cases object with
      | nil => simp [toEntityLoop] at h
      | cons e rest =>
        refine ⟨e, rest, rfl, ?_, Or.inl rfl⟩
        cases hc : e.GetFloat64 "confidence" with
        | none => simp [toEntityLoop, hc] at h
        | some c =>
          cases hv : e.GetInt64 "value" with
          | none => simp [toEntityLoop, hc, hv] at h
          | some v =>
            simp only [toEntityLoop, hc, hv, Except.ok.injEq] at h
            subst h
            exact ⟨c, hc, rfl, hv⟩
    · by_cases hdate : dataType = .DateTimeEntity
      · subst hdate
        cases object with
        | nil => simp [toEntityLoop] at h
        | cons e rest =>
          refine ⟨e, rest, rfl, ?_, Or.inr rfl⟩
          cases hc : e.GetFloat64 "confidence" with
          | none => simp [toEntityLoop, hc] at h
          | some c =>
            cases hs : e.GetString "value" with
            | some s =>
              cases hx : extractDateTimeInformation ParseTime e with
              | error err => simp [toEntityLoop, hc, hs, hx] at h
              | ok tg =>
                obtain ⟨t, g⟩ := tg
                simp only [toEntityLoop, hc, hs, hx, Except.ok.injEq] at h
                subst h
                obtain ⟨s2, hs2, ht, hg⟩ := extractDateTimeInformation_ok ParseTime e t g hx
                exact ⟨c, s2, hc, rfl, hs2, ht, hg⟩
            | none =>
              cases hfrom : e.GetObject "from" with
              | none => simp [toEntityLoop, hc, hs, hfrom] at h
              | some fromObject =>
                cases hxf : extractDateTimeInformation ParseTime fromObject with
                | error err => simp [toEntityLoop, hc, hs, hfrom, hxf] at h
                | ok tg1 =>
                  obtain ⟨t1, g1⟩ := tg1
                  cases hto : e.GetObject "to" with
                  | none => simp [toEntityLoop, hc, hs, hfrom, hxf, hto] at h
                  | some toObject =>
                    cases hxt : extractDateTimeInformation ParseTime toObject with
                    | error err => simp [toEntityLoop, hc, hs, hfrom, hxf, hto, hxt] at h
                    | ok tg2 =>
                      obtain ⟨t2, g2⟩ := tg2
                      simp only [toEntityLoop, hc, hs, hfrom, hxf, hto, hxt,
                        Except.ok.injEq] at h
                      subst h
                      obtain ⟨s1, hs1, ht1, hg1⟩ :=
                        extractDateTimeInformation_ok ParseTime fromObject t1 g1 hxf
                      obtain ⟨s2, hs2, ht2, hg2⟩ :=
                        extractDateTimeInformation_ok ParseTime toObject t2 g2 hxt
                      exact ⟨c, fromObject, toObject, s1, s2, hc, rfl, hfrom, hs1, ht1,
                        hg1, hto, hs2, ht2, hg2⟩
      · obtain ⟨err, herr⟩ :=
          toEntityLoop_unhandled ParseTime name dataType hint hdate object
        rw [herr] at h
        exact absurd h (by simp)

/-- The entity a field contributes was returned by `toEntity` for the type the
map gives to the key, a type other than the intent type. -/
theorem fieldEntity_some_inv (parser : witParser)
    (ParseTime : String → Except Error Time) (field : String × Value)
    (entity : ParsedEntity) (h : fieldEntity parser ParseTime field = some entity) :
    ∃ dataType, parser.dataTypeMap field.1 = some dataType ∧
      dataType ≠ .IntentEntity ∧
      toEntity ParseTime field.2 field.1 dataType = .ok entity := by
  unfold fieldEntity at h
  cases hd : parser.dataTypeMap field.1 with
  | none => simp [hd] at h
  | some dataType =>
    cases dataType with
    | IntentEntity => simp [hd] at h
    | IntEntity =>
      simp only [hd] at h
      cases he : toEntity ParseTime field.2 field.1 .IntEntity with
      | error err => simp [he] at h
      | ok e =>
        simp only [he, Option.some.injEq] at h
        subst h
        exact ⟨_, rfl, by simp, he⟩
    | DateTimeEntity =>
      simp only [hd] at h
      cases he : toEntity ParseTime field.2 field.1 .DateTimeEntity with
      | error err => simp [he] at h
      | ok e =>
        simp only [he, Option.some.injEq] at h
        subst h
        exact ⟨_, rfl, by simp, he⟩
    | other n =>
      simp only [hd] at h
      cases he : toEntity ParseTime field.2 field.1 (.other n) with
      | error err => simp [he] at h
      | ok e =>
        simp only [he, Option.some.injEq] at h
        subst h
        exact ⟨_, rfl, by simp, he⟩

/-- When the loop returns, the entities are those it started with followed by
the entities of the fields in visiting order. -/
theorem rangeLoop_entities (parser : witParser) (ParseTime : String → Except Error Time)
    (fields : List (String × Value)) (intent : Option ParsedIntent)
    (entities : List ParsedEntity) (pd : ParsedData)
    (h : rangeLoop parser ParseTime fields intent entities = .returned pd) :
    pd.entities = entities ++ fields.filterMap (fieldEntity parser ParseTime) := by
  induction fields generalizing intent entities with
  | nil =>
    simp only [rangeLoop, NewParsedData, Outcome.returned.injEq] at h
    subst h
    simp
  | cons field rest ih =>
    obtain ⟨key, value⟩ := field
    simp only [rangeLoop] at h
    cases hd : parser.dataTypeMap key with
    | none =>
      simp only [hd] at h
      have hfe : fieldEntity parser ParseTime (key, value) = none := by
        simp [fieldEntity, hd]
      simpa [List.filterMap_cons, hfe] using ih intent entities h
    | some dataType =>
      cases dataType with
      | IntentEntity =>
        have hfe : fieldEntity parser ParseTime (key, value) = none := by
          simp [fieldEntity, hd]
        simp only [hd] at h
        cases hi : toIntent value with
        | panicked => simp [hi] at h
        | failed err =>
          simp only [hi] at h
          simpa [List.filterMap_cons, hfe] using ih intent entities h
        | returned i =>
          simp only [hi] at h
          simpa [List.filterMap_cons, hfe] using ih (some i) entities h
      | IntEntity =>
        simp only [hd] at h
        cases he : toEntity ParseTime value key .IntEntity with
        | error err =>
          simp only [he] at h
          have hfe : fieldEntity parser ParseTime (key, value) = none := by
            simp [fieldEntity, hd, he]
          simpa [List.filterMap_cons, hfe] using ih intent entities h
        | ok entity =>
          simp only [he] at h
          have hfe : fieldEntity parser ParseTime (key, value) = some entity := by
            simp [fieldEntity, hd, he]
          simpa [List.filterMap_cons, hfe] using ih intent (entities ++ [entity]) h
      | DateTimeEntity =>
        simp only [hd] at h
        cases he : toEntity ParseTime value key .DateTimeEntity with
        | error err =>
          simp only [he] at h
          have hfe : fieldEntity parser ParseTime (key, value) = none := by
            simp [fieldEntity, hd, he]
          simpa [List.filterMap_cons, hfe] using ih intent entities h
        | ok entity =>
          simp only [he] at h
          have hfe : fieldEntity parser ParseTime (key, value) = some entity := by
            simp [fieldEntity, hd, he]
          simpa [List.filterMap_cons, hfe] using ih intent (entities ++ [entity]) h
      | other n =>
        simp only [hd] at h
        cases he : toEntity ParseTime value key (.other n) with
        | error err =>
          simp only [he] at h
          have hfe : fieldEntity parser ParseTime (key, value) = none := by
            simp [fieldEntity, hd, he]
          simpa [List.filterMap_cons, hfe] using ih intent entities h
        | ok entity =>
          simp only [he] at h
          have hfe : fieldEntity parser ParseTime (key, value) = some entity := by
            simp [fieldEntity, hd, he]
          simpa [List.filterMap_cons, hfe] using ih intent (entities ++ [entity]) h

/-- A call of `ParseNlpData` that returns a `ParsedData` was given a decoded
object, and the entities are those of its fields in visiting order. -/
theorem ParseNlpData_returned_inv (parser : witParser)
    (ParseTime : String → Except Error Time) (rawData : RawData) (pd : ParsedData)
    (h : ParseNlpData parser ParseTime rawData = .returned pd) :
    ∃ fields, rawData = some (.object fields) ∧
      pd.entities = fields.filterMap (fieldEntity parser ParseTime) := by
  cases rawData with
  | none => simp [ParseNlpData, NewObjectFromBytes] at h
  | some v =>
    cases v with
    | object fields =>
      refine ⟨fields, rfl, ?_⟩
      rw [ParseNlpData_object] at h
      simpa using rangeLoop_entities parser ParseTime fields none [] pd h
    | null => simp [ParseNlpData, NewObjectFromBytes, Value.Object] at h
    | bool b => simp [ParseNlpData, NewObjectFromBytes, Value.Object] at h
    | number n => simp [ParseNlpData, NewObjectFromBytes, Value.Object] at h
    | string s => simp [ParseNlpData, NewObjectFromBytes, Value.Object] at h
    | array elems => simp [ParseNlpData, NewObjectFromBytes, Value.Object] at h

/-- C12: every entity of a `ParsedData` returned by `ParseNlpData` is named
after a field of the decoded object and was built from the first candidate of
that field, a candidate in which every required sub-field is present and of the
right type (numeric `confidence`; integer `value`, or parseable string `value`
and string `grain`, or `from` and `to` objects with both); and a field on which
`toEntity` returns an error leaves the loop variables unchanged, so nothing is
appended for it. -/
theorem ParseNlpData_no_partial_entity (parser : witParser)
    (ParseTime : String → Except Error Time) (rawData : RawData) (pd : ParsedData)
    (h : ParseNlpData parser ParseTime rawData = .returned pd) :
    (∀ entity ∈ pd.entities, ∃ fields, rawData = some (.object fields) ∧
        ∃ field ∈ fields, ∃ first rest,
          field.2.ObjectArray = some (first :: rest) ∧ entity.name = field.1 ∧
          FullyExtracted ParseTime first entity) ∧
      (∀ key value dataType err more intent entities,
        parser.dataTypeMap key = some dataType → dataType ≠ .IntentEntity →
        toEntity ParseTime value key dataType = .error err →
        rangeLoop parser ParseTime ((key, value) :: more) intent entities =
          rangeLoop parser ParseTime more intent entities) := by
  obtain ⟨fields, hraw, hent⟩ := ParseNlpData_returned_inv parser ParseTime rawData pd h
  refine ⟨?_, ?_⟩
  · intro entity hmem
    rw [hent, List.mem_filterMap] at hmem
    obtain ⟨field, hfield, hfe⟩ := hmem
    obtain ⟨dataType, _, _, hok⟩ := fieldEntity_some_inv parser ParseTime field entity hfe
    obtain ⟨first, rest, harr, hfull, _⟩ :=
      toEntity_ok_inv ParseTime field.2 field.1 dataType entity hok
    exact ⟨fields, hraw, field, hfield, first, rest, harr,
      fieldEntity_name parser ParseTime field entity hfe, hfull⟩
  · intro key value dataType err more intent entities hkey hne hfail
    exact rangeLoop_skip_entity parser ParseTime key value dataType err hkey hne hfail
      more intent entities

/-- Witness of C12: the payload with a valid `nb_persons` field and a
`datetime` field whose candidate has no `to`; the result holds the integer
entity alone. -/
theorem ParseNlpData_no_partial_entity_witness :
    ParseNlpData newParser sampleParseTime (some (.object
        [nbPersonsField, ("datetime", .array [.object intervalCandidateNoTo.Map])])) =
      .returned ⟨none, [.int "nb_persons" (float32 ⟨87, -2⟩) 3 ""]⟩ ∧
    ∀ entity ∈ [ParsedEntity.int "nb_persons" (float32 ⟨87, -2⟩) 3 ""],
      ∃ fields, (some (.object
          [nbPersonsField, ("datetime", .array [.object intervalCandidateNoTo.Map])]) :
            RawData) = some (.object fields) ∧
        ∃ field ∈ fields, ∃ first rest,
          field.2.ObjectArray = some (first :: rest) ∧ entity.name = field.1 ∧
          FullyExtracted sampleParseTime first entity :=
  ⟨rfl, (ParseNlpData_no_partial_entity newParser sampleParseTime
    (some (.object
      [nbPersonsField, ("datetime", .array [.object intervalCandidateNoTo.Map])]))
    ⟨none, [.int "nb_persons" (float32 ⟨87, -2⟩) 3 ""]⟩ rfl).1⟩

/-- C13 fails as stated: the candidate
`{"confidence": 0.9, "value": 3, "from": ..., "to": ...}` carries a `value`
field (a number), and `toEntity` returns a date/time interval entity. -/
theorem toEntity_interval_with_numeric_value :
    (intervalCandidateNumericValue.get "value").isSome = true ∧
      toEntity sampleParseTime (.array [.object intervalCandidateNumericValue.Map])
          "datetime" .DateTimeEntity =
        .ok (.dateTimeInterval "datetime" (float32 ⟨9, -1⟩) ⟨1709287200⟩ "hour"
          ⟨1709404200⟩ "minute" "") :=
  ⟨rfl, rfl⟩

/-- C13 as amended: the interval fallback is taken only when `value` is absent
or is not a string; for a date/time candidate (the first object of the array)
that carries a string `value`, `toEntity` never returns a date/time interval
entity, whatever `from` and `to` hold. -/
theorem toEntity_no_interval_with_string_value (ParseTime : String → Except Error Time)
    (key : String) (value : Value) (first : Object) (rest : List Object) (s : String)
    (harr : value.ObjectArray = some (first :: rest))
    (hs : first.GetString "value" = some s) :
    ∀ entity, toEntity ParseTime value key .DateTimeEntity = .ok entity →
      entity.isInterval = false := by
  intro entity h
  unfold toEntity at h
  simp only [harr] at h
  cases hc : first.GetFloat64 "confidence" with
  | none => simp [toEntityLoop, hc] at h
  | some c =>
    cases hx : extractDateTimeInformation ParseTime first with
    | error err => simp [toEntityLoop, hc, hs, hx] at h
    | ok tg =>
      obtain ⟨t, g⟩ := tg
      simp only [toEntityLoop, hc, hs, hx, Except.ok.injEq] at h
      subst h
      rfl

/-- Witness of C13 as amended: the candidate with the string value
`2024-03-01T10:00:00Z`, grain `hour` and both bounds gives a single date/time
entity. -/
theorem toEntity_no_interval_with_string_value_witness :
    toEntity sampleParseTime (.array [.object dateTimeCandidateWithBounds.Map])
        "datetime" .DateTimeEntity =
      .ok (.singleDateTime "datetime" (float32 ⟨9, -1⟩) ⟨1709287200⟩ "hour" "") ∧
    ∀ entity, toEntity sampleParseTime (.array [.object dateTimeCandidateWithBounds.Map])
        "datetime" .DateTimeEntity = .ok entity → entity.isInterval = false :=
  ⟨rfl, toEntity_no_interval_with_string_value sampleParseTime "datetime"
    (.array [.object dateTimeCandidateWithBounds.Map]) dateTimeCandidateWithBounds []
    "2024-03-01T10:00:00Z" rfl rfl⟩

/-- For a type without extractor the loop of `toEntity` ends with
`ErrUnhandledDataType` when every candidate holds a numeric `confidence`. -/
theorem toEntityLoop_other_all (ParseTime : String → Except Error Time) (name : String)
    (typeName : String) (candidates : List Object)
    (h : ∀ candidate ∈ candidates, ∃ c, candidate.GetFloat64 "confidence" = some c) :
    toEntityLoop ParseTime name (.other typeName) candidates =
      .error (.ErrUnhandledDataType (.other typeName)) := by
  induction candidates with
  | nil => rfl
  | cons e rest ih =>
    obtain ⟨c, hc⟩ := h e (List.mem_cons_self _ _)
    simp only [toEntityLoop, hc]
    exact ih (fun o ho => h o (List.mem_cons_of_mem _ ho))

/-- For a type without extractor the loop of `toEntity` ends with
`ErrCouldNotCastValue` when some candidate holds no numeric `confidence`. -/
theorem toEntityLoop_other_some (ParseTime : String → Except Error Time) (name : String)
    (typeName : String) (candidates : List Object)
    (h : ∃ candidate ∈ candidates, candidate.GetFloat64 "confidence" = none) :
    toEntityLoop ParseTime name (.other typeName) candidates =
      .error (.ErrCouldNotCastValue "confidence" "float64") := by
  induction candidates with
  | nil =>
    obtain ⟨o, ho, _⟩ := h
    simp at ho
  | cons e rest ih =>
    cases hc : e.GetFloat64 "confidence" with
    | none => simp [toEntityLoop, hc]
    | some c =>
      simp only [toEntityLoop, hc]
      apply ih
      obtain ⟨o, ho, hno⟩ := h
      rw [List.mem_cons] at ho
      rcases ho with ho | ho
      · subst ho
        rw [hc] at hno
        exact absurd hno (by simp)
      · exact ⟨o, ho, hno⟩

/-- C14 fails as stated: under the key `location`, mapped to a type without
extractor, the array holding the candidate `{"value": "Paris"}` (no
`confidence`) makes `toEntity` fail with `ErrCouldNotCastValue`, not with
`ErrUnhandledDataType`. -/
theorem toEntity_unhandled_without_confidence :
    locationParser.dataTypeMap "location" = some (.other "location") ∧
      toEntity sampleParseTime (.array [.object locationCandidateNoConfidence.Map])
          "location" (.other "location") =
        .error (.ErrCouldNotCastValue "confidence" "float64") :=
  ⟨rfl, rfl⟩

/-- C14 as amended: for a key mapped to a type without extractor and an array
of candidate objects, `toEntity` fails with `ErrUnhandledDataType` naming the
type when every candidate carries a numeric `confidence`, and with
`ErrCouldNotCastValue` when some candidate does not; in both cases
`ParseNlpData` ends exactly as on the payload without that key, and it returns
a `ParsedData` (nil error) holding no entity named after the key, the other
fields having distinct keys and no intent-typed key with an empty array. -/
theorem toEntity_unhandled_type (parser : witParser)
    (ParseTime : String → Except Error Time) (key typeName : String) (value : Value)
    (candidates : List Object) (pre post : List (String × Value))
    (hkey : parser.dataTypeMap key = some (.other typeName))
    (harr : value.ObjectArray = some candidates)
    (hsafe : NoEmptyIntent parser (pre ++ post))
    (hfresh : ∀ field ∈ pre ++ post, field.1 ≠ key) :
    ((∀ candidate ∈ candidates, ∃ c, candidate.GetFloat64 "confidence" = some c) →
        toEntity ParseTime value key (.other typeName) =
          .error (.ErrUnhandledDataType (.other typeName))) ∧
      ((∃ candidate ∈ candidates, candidate.GetFloat64 "confidence" = none) →
        toEntity ParseTime value key (.other typeName) =
          .error (.ErrCouldNotCastValue "confidence" "float64")) ∧
      ParseNlpData parser ParseTime (some (.object (pre ++ (key, value) :: post))) =
        ParseNlpData parser ParseTime (some (.object (pre ++ post))) ∧
      ∃ pd, ParseNlpData parser ParseTime
          (some (.object (pre ++ (key, value) :: post))) = .returned pd ∧
        ∀ entity ∈ pd.entities, entity.name ≠ key := by
  obtain ⟨err, hfail⟩ : ∃ err, toEntity ParseTime value key (.other typeName) =
      .error err := by
    unfold toEntity
    rw [harr]
    exact toEntityLoop_unhandled ParseTime key (.other typeName) (by simp) (by simp)
      candidates
  have hsame : ParseNlpData parser ParseTime
      (some (.object (pre ++ (key, value) :: post))) =
      ParseNlpData parser ParseTime (some (.object (pre ++ post))) := by
    rw [ParseNlpData_object, ParseNlpData_object]
    exact rangeLoop_remove parser ParseTime _
      (fun more intent entities =>
        rangeLoop_skip_entity parser ParseTime key value (.other typeName) err hkey
          (by simp) hfail more intent entities) pre post none []
  refine ⟨?_, ?_, hsame, ?_⟩
  · intro hall
    unfold toEntity
    rw [harr]
    exact toEntityLoop_other_all ParseTime key typeName candidates hall
  · intro hsome
    unfold toEntity
    rw [harr]
    exact toEntityLoop_other_some ParseTime key typeName candidates hsome
  · rw [hsame, ParseNlpData_object, rangeLoop_returned _ _ _ _ _ hsafe]
    refine ⟨_, rfl, ?_⟩
    intro entity hmem
    simp only [List.nil_append, List.mem_filterMap] at hmem
    obtain ⟨field, hfield, hent⟩ := hmem
    rw [fieldEntity_name parser ParseTime field entity hent]
    exact hfresh field hfield

/-- Witness of C14 as amended: `location` holds the candidate
`{"value": "Paris", "confidence": 0.9}`, next to a valid `nb_persons` field. -/
theorem toEntity_unhandled_type_witness :
    toEntity sampleParseTime (.array [.object locationCandidate.Map]) "location"
        (.other "location") = .error (.ErrUnhandledDataType (.other "location")) ∧
      ParseNlpData locationParser sampleParseTime (some (.object
          ([nbPersonsField] ++ ("location", .array [.object locationCandidate.Map]) ::
            []))) =
        .returned ⟨none, [.int "nb_persons" (float32 ⟨87, -2⟩) 3 ""]⟩ :=
  ⟨(toEntity_unhandled_type locationParser sampleParseTime "location" "location"
      (.array [.object locationCandidate.Map]) [locationCandidate] [nbPersonsField] []
      rfl rfl
      (by simp [NoEmptyIntent, nbPersonsField, locationParser, defaultDataTypeMap])
      (by simp [nbPersonsField])).1
      (by simp [locationCandidate, jsonConfidence09, Object.GetFloat64, Object.get,
        List.lookup, Value.Float64, Value.Number]),
    rfl⟩

/-- C15 fails as stated: the candidate
`{"value": 3, "confidence": 0.87, "role": "guests"}` has the role `guests`, and
the integer entity `toEntity` returns has the empty role. -/
theorem toEntity_int_drops_role :
    intCandidateWithRole.GetString "role" = some "guests" ∧
      toEntity sampleParseTime (.array [.object intCandidateWithRole.Map]) "nb_persons"
          .IntEntity =
        .ok (.int "nb_persons" (float32 ⟨87, -2⟩) 3 "") :=
  ⟨rfl, rfl⟩

/-- C15 as amended: for an integer candidate (the first object of the array)
with a numeric `confidence` and an integer `value`, `toEntity` returns an
integer entity whose role is the empty string, whether or not the candidate
has a `role`. -/
theorem toEntity_int_role_empty (ParseTime : String → Except Error Time)
    (key : String) (value : Value) (first : Object) (rest : List Object)
    (c : Float64) (v : Int)
    (harr : value.ObjectArray = some (first :: rest))
    (hc : first.GetFloat64 "confidence" = some c)
    (hv : first.GetInt64 "value" = some v) :
    ∃ entity, toEntity ParseTime value key .IntEntity = .ok entity ∧
      entity.isInt = true ∧ entity.role = "" := by
  refine ⟨.int key (float32 c) v "", ?_, rfl, rfl⟩
  simp [toEntity, harr, toEntityLoop, hc, hv, NewParsedIntEntity]

/-- Witness of C15 as amended: the candidate with the role `guests`. -/
theorem toEntity_int_role_empty_witness :
    ∃ entity, toEntity sampleParseTime (.array [.object intCandidateWithRole.Map])
        "nb_persons" .IntEntity = .ok entity ∧
      entity.isInt = true ∧ entity.role = "" :=
  toEntity_int_role_empty sampleParseTime "nb_persons"
    (.array [.object intCandidateWithRole.Map]) intCandidateWithRole [] ⟨87, -2⟩ 3
    rfl rfl rfl

/-- A rational rounds to the integer it is less than one half away from. -/
theorem roundHalfEven_eq_of_near (x : ℚ) (m : ℤ) (h : |x - m| < 1 / 2) :
    roundHalfEven x = m := by
  have h1 := abs_lt.1 h
  have hlo : (m : ℚ) - 1 / 2 < x := by linarith [h1.1]
  have hhi : x < (m : ℚ) + 1 / 2 := by linarith [h1.2]
  have hfl : ⌊x⌋ = m ∨ ⌊x⌋ = m - 1 := by
    have ha : m - 1 ≤ ⌊x⌋ := Int.le_floor.2 (by push_cast; linarith)
    have hb : ⌊x⌋ < m + 1 := Int.floor_lt.2 (by push_cast; linarith)
    omega
  have hfle := Int.floor_le x
  have hflt := Int.lt_floor_add_one x
  unfold roundHalfEven
  rcases hfl with hf | hf
  · rw [hf]
    have : x - (m : ℚ) < 1 / 2 := by linarith
    rw [if_pos this]
  · rw [hf] at hfle hflt ⊢
    push_cast at hfle hflt ⊢
    have h2 : ¬ x - ((m : ℚ) - 1) < 1 / 2 := by linarith
    have h3 : 1 / 2 < x - ((m : ℚ) - 1) := by linarith
    rw [if_neg h2, if_pos h3]
    ring

/-- The binary exponent of a positive rational, from the powers of two around
it. -/
theorem log_two_eq (x : ℚ) (e : ℤ) (hpos : 0 < x) (hlo : (2 : ℚ) ^ e ≤ x)
    (hhi : x < (2 : ℚ) ^ (e + 1)) : Int.log 2 x = e := by
  have h1 : e ≤ Int.log 2 x :=
    (Int.zpow_le_iff_le_log (b := 2) (by norm_num) hpos).1 (by simpa using hlo)
  have h2 : Int.log 2 x < e + 1 :=
    (Int.lt_zpow_iff_log_lt (b := 2) (by norm_num) hpos).1 (by simpa using hhi)
  omega

/-- The rounding of a rational with a known binary exponent and a known
nearest multiple of the unit in the last place. -/
theorem roundBinary_eq_of_near (p : ℕ) (emin : ℤ) (x : ℚ) (e : ℤ) (m : ℤ)
    (hx : x ≠ 0) (hlo : (2 : ℚ) ^ e ≤ |x|) (hhi : |x| < (2 : ℚ) ^ (e + 1))
    (hm : |x / (2 : ℚ) ^ max (e - (p - 1)) emin - m| < 1 / 2) :
    roundBinary p emin x = (m : ℚ) * (2 : ℚ) ^ max (e - (p - 1)) emin := by
  unfold roundBinary
  rw [if_neg hx, log_two_eq |x| e (abs_pos.2 hx) hlo hhi, roundHalfEven_eq_of_near _ m hm]

/-- The decimal 1.00000000001 is read as a float64 slightly above 1, and its
conversion `float32` is exactly 1. -/
theorem float32_just_above_one : (float32 ⟨100000000001, -11⟩).value = some 1 := by
  have hdec : (⟨100000000001, -11⟩ : Float64).decimal = (100000000001 : ℚ) / 10 ^ 11 := by
    norm_num [Float64.decimal]
  have hq53 : max ((0 : ℤ) - (((53 : ℕ) : ℤ) - 1)) (-1074) = -52 := by norm_num
  have hq24 : max ((0 : ℤ) - (((24 : ℕ) : ℤ) - 1)) (-149) = -23 := by norm_num
  have hval : (⟨100000000001, -11⟩ : Float64).value = (4503599627415532 : ℚ) / 2 ^ 52 := by
    unfold Float64.value
    rw [hdec, roundBinary_eq_of_near 53 (-1074) ((100000000001 : ℚ) / 10 ^ 11) 0
      4503599627415532 (by norm_num) (by norm_num [abs_of_pos]) (by norm_num [abs_of_pos])
      (by
        rw [hq53, abs_lt]
        constructor <;> norm_num), hq53]
    norm_num
  have h32 : roundBinary 24 (-149) ((4503599627415532 : ℚ) / 2 ^ 52) = 1 := by
    rw [roundBinary_eq_of_near 24 (-149) ((4503599627415532 : ℚ) / 2 ^ 52) 0 8388608
      (by norm_num) (by norm_num [abs_of_pos]) (by norm_num [abs_of_pos])
      (by
        rw [hq24, abs_lt]
        constructor <;> norm_num), hq24]
    norm_num
  unfold float32
  rw [hval, h32]
  norm_num

/-- The names of the entities of a sequence of fields form a subsequence of
the keys of the fields. -/
theorem fieldEntity_names_sublist (parser : witParser)
    (ParseTime : String → Except Error Time) (fields : List (String × Value)) :
    ((fields.filterMap (fieldEntity parser ParseTime)).map ParsedEntity.name).Sublist
      (fields.map Prod.fst) := by
  induction fields with
  | nil => simp
  | cons field rest ih =>
    cases hfe : fieldEntity parser ParseTime field with
    | none =>
      simp only [List.filterMap_cons, hfe, List.map_cons]
      exact List.Sublist.cons _ ih
    | some entity =>
      simp only [List.filterMap_cons, hfe, List.map_cons]
      rw [fieldEntity_name parser ParseTime field entity hfe]
      exact List.Sublist.cons₂ _ ih

/-- There are at most as many entities as fields whose key is mapped to an
entity type. -/
theorem fieldEntity_length_le (parser : witParser)
    (ParseTime : String → Except Error Time) (fields : List (String × Value)) :
    (fields.filterMap (fieldEntity parser ParseTime)).length ≤
      (fields.filter (entityKey parser)).length := by
  induction fields with
  | nil => simp
  | cons field rest ih =>
    cases hfe : fieldEntity parser ParseTime field with
    | none =>
      simp only [List.filterMap_cons, hfe, List.filter_cons]
      split
      · exact Nat.le_succ_of_le ih
      · exact ih
    | some entity =>
      obtain ⟨dataType, hd, hne, _⟩ :=
        fieldEntity_some_inv parser ParseTime field entity hfe
      have hk : entityKey parser field = true := by
        unfold entityKey
        rw [hd]
        cases dataType with
        | IntentEntity => exact absurd rfl hne
        | IntEntity => rfl
        | DateTimeEntity => rfl
        | other n => rfl
      simp only [List.filterMap_cons, hfe, List.filter_cons, hk, if_true, List.length_cons]
      exact Nat.succ_le_succ ih

/-- C17: for a key of integer or date/time type and a non-empty array of
candidate objects, `toEntity` gives the same result (entity or error) as on
the array reduced to its first element; and in every `ParsedData` returned by
`ParseNlpData` on an object (whose keys are distinct) each key names at most
one entity, the entity names are pairwise distinct, and there are at most as
many entities as fields whose key the map sends to a type other than the
intent type. -/
theorem toEntity_first_candidate_only (parser : witParser)
    (ParseTime : String → Except Error Time) (key : String) (value : Value)
    (first : Object) (rest : List Object) (dataType : EntityType)
    (fields : List (String × Value)) (pd : ParsedData)
    (hdt : dataType = .IntEntity ∨ dataType = .DateTimeEntity)
    (harr : value.ObjectArray = some (first :: rest))
    (hkeys : (fields.map Prod.fst).Nodup)
    (hret : ParseNlpData parser ParseTime (some (.object fields)) = .returned pd) :
    toEntity ParseTime value key dataType =
        toEntity ParseTime (.array [.object first.Map]) key dataType ∧
      (∀ k, (pd.entities.map ParsedEntity.name).count k ≤ 1) ∧
      (pd.entities.map ParsedEntity.name).Nodup ∧
      pd.entities.length ≤ (fields.filter (entityKey parser)).length := by
  have hent : pd.entities = fields.filterMap (fieldEntity parser ParseTime) := by
    rw [ParseNlpData_object] at hret
    simpa using rangeLoop_entities parser ParseTime fields none [] pd hret
  have hnodup : (pd.entities.map ParsedEntity.name).Nodup := by
    rw [hent]
    exact (fieldEntity_names_sublist parser ParseTime fields).nodup hkeys
  refine ⟨?_, ?_, hnodup, ?_⟩
  · have hone : (Value.array [.object first.Map]).ObjectArray = some [first] := rfl
    unfold toEntity
    rw [harr, hone]
    rcases hdt with hdt | hdt
    · subst hdt
      simp only [toEntityLoop]
    · subst hdt
      simp only [toEntityLoop]
  · intro k
    exact List.nodup_iff_count_le_one.1 hnodup k
  · rw [hent]
    exact fieldEntity_length_le parser ParseTime fields

/-- Witness of C17: the field `nb_persons` with the two candidates
`{"value": 3, "confidence": 0.87}` and `{"value": 3}`, in a payload that also
holds an `intent` and a `datetime` field. -/
theorem toEntity_first_candidate_only_witness :
    toEntity sampleParseTime
        (.array [.object intCandidate.Map, .object intCandidateNoConfidence.Map])
        "nb_persons" .IntEntity =
      toEntity sampleParseTime (.array [.object intCandidate.Map]) "nb_persons"
        .IntEntity ∧
    (∀ k, (([ParsedEntity.int "nb_persons" (float32 ⟨87, -2⟩) 3 "",
        .singleDateTime "datetime" (float32 ⟨9, -1⟩) ⟨1709287200⟩ "hour" ""]).map
          ParsedEntity.name).count k ≤ 1) ∧
    (([ParsedEntity.int "nb_persons" (float32 ⟨87, -2⟩) 3 "",
        .singleDateTime "datetime" (float32 ⟨9, -1⟩) ⟨1709287200⟩ "hour" ""]).map
          ParsedEntity.name).Nodup ∧
    ([ParsedEntity.int "nb_persons" (float32 ⟨87, -2⟩) 3 "",
        .singleDateTime "datetime" (float32 ⟨9, -1⟩) ⟨1709287200⟩ "hour" ""]).length ≤
      (([("intent", .array [.object intentCandidate.Map]),
        ("nb_persons",
          .array [.object intCandidate.Map, .object intCandidateNoConfidence.Map]),
        dateTimeField] : List (String × Value)).filter (entityKey newParser)).length :=
  toEntity_first_candidate_only newParser sampleParseTime "nb_persons"
    (.array [.object intCandidate.Map, .object intCandidateNoConfidence.Map])
    intCandidate [intCandidateNoConfidence] .IntEntity
    [("intent", .array [.object intentCandidate.Map]),
      ("nb_persons",
        .array [.object intCandidate.Map, .object intCandidateNoConfidence.Map]),
      dateTimeField]
    ⟨some ⟨"book_table"⟩, [.int "nb_persons" (float32 ⟨87, -2⟩) 3 "",
      .singleDateTime "datetime" (float32 ⟨9, -1⟩) ⟨1709287200⟩ "hour" ""]⟩
    (Or.inl rfl) rfl (by simp [dateTimeField]) rfl

end Wit

namespace Wit

/-- An object is only read from bytes whose first byte after white space is `{`. -/
theorem parseValue_object_first (fuel : Nat) (bytes : List Nat)
    (fields : List (String × Value)) (rest : List Nat)
    (h : parseValue fuel bytes = some (.object fields, rest)) :
    ∃ tail, skipSpace bytes = 123 :: tail := by
  cases fuel with
  | zero => simp [parseValue] at h
  | succ fuel =>
    unfold parseValue at h
    cases hs : skipSpace bytes with
    | nil => simp [hs] at h
    | cons c tail =>
      by_cases hc : c = 123
      · exact ⟨tail, by rw [hc]⟩
      · exfalso
        simp only [hs, hc, if_false] at h
        repeat' split at h
        all_goals simp at h

/-- The decoder only gives an object for bytes whose first byte after white space
is `{`. -/
theorem Decode_object_first (bytes : List Nat) (fields : List (String × Value))
    (h : Decode bytes = some (.object fields)) :
    ∃ tail, skipSpace bytes = 123 :: tail := by
  unfold Decode at h
  cases hp : parseValue (bytes.length + 1) bytes with
  | none => simp [hp] at h
  | some res =>
    obtain ⟨v, rest⟩ := res
    simp only [hp, Option.some.injEq] at h
    subst h
    exact parseValue_object_first _ bytes fields rest hp

/-- The bytes `{}` followed by anything decode to the empty object. -/
theorem Decode_empty_object (extra : List Nat) :
    Decode (123 :: 125 :: extra) = some (.object []) := by
  simp [Decode, parseValue, skipSpace, isSpace]

/-- One step of `skipSpace`. -/
theorem skipSpace_cons (b : Nat) (rest : List Nat) :
    skipSpace (b :: rest) = if isSpace b then skipSpace rest else b :: rest := rfl

/-- One step of `takeDigits`. -/
theorem takeDigits_cons (b : Nat) (rest : List Nat) :
    takeDigits (b :: rest) =
      if isDigit b then ((b - 48) :: (takeDigits rest).1, (takeDigits rest).2)
      else ([], b :: rest) := rfl

/-- Bytes added at the end are kept after the white space skipped. -/
theorem skipSpace_append (bytes extra : List Nat) (c : Nat) (tail : List Nat)
    (h : skipSpace bytes = c :: tail) : skipSpace (bytes ++ extra) = c :: (tail ++ extra) := by
  induction bytes with
  | nil => simp [skipSpace] at h
  | cons b rest ih =>
    rw [List.cons_append, skipSpace_cons]
    rw [skipSpace_cons] at h
    by_cases hb : isSpace b = true
    · rw [if_pos hb] at h ⊢
      exact ih h
    · rw [if_neg hb] at h ⊢
      rw [List.cons.injEq] at h
      rw [h.1, h.2]

/-- Bytes added at the end do not change a run of digits that is followed by
another byte. -/
theorem takeDigits_append (bytes extra : List Nat) (h : (takeDigits bytes).2 ≠ []) :
    takeDigits (bytes ++ extra) = ((takeDigits bytes).1, (takeDigits bytes).2 ++ extra) := by
  induction bytes with
  | nil => simp [takeDigits] at h
  | cons b rest ih =>
    rw [List.cons_append, takeDigits_cons, takeDigits_cons]
    rw [takeDigits_cons] at h
    by_cases hb : isDigit b = true
    · simp only [if_pos hb] at h ⊢
      rw [ih h]
    · simp only [if_neg hb]
      rfl

/-- Bytes added at the end do not change an exponent part that is followed by
another byte. -/
theorem scanExponent_append (negative : Bool) (intDigits fracDigits : List Nat)
    (hasFrac : Bool) (bytes extra : List Nat) (n : Number) (rest : List Nat)
    (h : scanExponent negative intDigits fracDigits hasFrac bytes = some (n, rest))
    (hne : rest ≠ []) :
    scanExponent negative intDigits fracDigits hasFrac (bytes ++ extra) =
      some (n, rest ++ extra) := by
  unfold scanExponent at h ⊢
  cases bytes with
  | nil =>
    simp only [Option.some.injEq, Prod.mk.injEq] at h
    exact absurd h.2.symm hne
  | cons c tail =>
    simp only [List.cons_append] at h ⊢
    by_cases hc : (c = 101 || c = 69) = true
    · simp only [hc, if_true] at h ⊢
      cases tail with
      | nil => simp at h
      | cons s rest2 =>
        simp only [List.cons_append] at h ⊢
        by_cases hs : (s = 43 || s = 45) = true
        · simp only [hs, if_true] at h ⊢
          cases htd : takeDigits rest2 with
          | mk ds r =>
            rw [htd] at h
            cases ds with
            | nil => simp at h
            | cons d ds =>
              simp only [Option.some.injEq, Prod.mk.injEq] at h
              have hr : (takeDigits rest2).2 ≠ [] := by rw [htd]; rw [h.2]; exact hne
              rw [takeDigits_append rest2 extra hr, htd]
              simp [h.1, h.2]
        · simp only [hs] at h ⊢
          simp only [Bool.false_eq_true, if_false] at h ⊢
          cases htd : takeDigits (s :: rest2) with
          | mk ds r =>
            rw [htd] at h
            cases ds with
            | nil => simp at h
            | cons d ds =>
              simp only [Option.some.injEq, Prod.mk.injEq] at h
              have hr : (takeDigits (s :: rest2)).2 ≠ [] := by rw [htd]; rw [h.2]; exact hne
              have := takeDigits_append (s :: rest2) extra hr
              simp only [List.cons_append] at this
              rw [this, htd]
              simp [h.1, h.2]
    · simp only [hc] at h ⊢
      simp only [Bool.false_eq_true, if_false, Option.some.injEq, Prod.mk.injEq] at h ⊢
      exact ⟨h.1, by rw [← h.2]; rfl⟩

/-- Bytes added at the end do not change a fraction part that is followed by
another byte. -/
theorem scanFraction_append (negative : Bool) (intDigits : List Nat)
    (bytes extra : List Nat) (n : Number) (rest : List Nat)
    (h : scanFraction negative intDigits bytes = some (n, rest)) (hne : rest ≠ []) :
    scanFraction negative intDigits (bytes ++ extra) = some (n, rest ++ extra) := by
  unfold scanFraction at h ⊢
  cases bytes with
  | nil =>
    simp only [scanExponent, Option.some.injEq, Prod.mk.injEq] at h
    exact absurd h.2.symm hne
  | cons c tail =>
    simp only [List.cons_append] at h ⊢
    by_cases hc : c = 46
    · simp only [hc, if_true] at h ⊢
      cases htd : takeDigits tail with
      | mk ds r =>
        rw [htd] at h
        cases ds with
        | nil => simp at h
        | cons d ds =>
          simp only at h
          have hr : (takeDigits tail).2 ≠ [] := by
            rw [htd]
            intro hnil
            simp only at hnil
            subst hnil
            simp only [scanExponent, Option.some.injEq, Prod.mk.injEq] at h
            exact hne h.2.symm
          rw [takeDigits_append tail extra hr, htd]
          exact scanExponent_append negative intDigits (d :: ds) true r extra n rest h hne
    · simp only [hc, if_false] at h ⊢
      exact scanExponent_append negative intDigits [] false (c :: tail) extra n rest h hne

/-- Bytes added at the end do not change an integer part that is followed by
another byte. -/
theorem scanInteger_append (negative : Bool) (bytes extra : List Nat) (n : Number)
    (rest : List Nat) (h : scanInteger negative bytes = some (n, rest)) (hne : rest ≠ []) :
    scanInteger negative (bytes ++ extra) = some (n, rest ++ extra) := by
  unfold scanInteger at h ⊢
  cases bytes with
  | nil => simp at h
  | cons c tail =>
    simp only [List.cons_append] at h ⊢
    by_cases hc : c = 48
    · simp only [hc, if_true] at h ⊢
      exact scanFraction_append negative [0] tail extra n rest h hne
    · simp only [hc, if_false] at h ⊢
      by_cases hd : isDigit c = true
      · simp only [hd, if_true] at h ⊢
        have hr : (takeDigits tail).2 ≠ [] := by
          intro hnil
          rw [hnil] at h
          simp only [scanFraction, scanExponent, Option.some.injEq, Prod.mk.injEq] at h
          exact hne h.2.symm
        rw [takeDigits_append tail extra hr]
        exact scanFraction_append negative _ _ extra n rest h hne
      · simp [hd] at h

/-- Bytes added at the end do not change a number literal that is followed by
another byte. -/
theorem scanNumber_append (bytes extra : List Nat) (n : Number) (rest : List Nat)
    (h : scanNumber bytes = some (n, rest)) (hne : rest ≠ []) :
    scanNumber (bytes ++ extra) = some (n, rest ++ extra) := by
  unfold scanNumber at h ⊢
  cases bytes with
  | nil => simp at h
  | cons c tail =>
    simp only [List.cons_append] at h ⊢
    by_cases hc : c = 45
    · simp only [hc, if_true] at h ⊢
      exact scanInteger_append true tail extra n rest h hne
    · simp only [hc, if_false] at h ⊢
      exact scanInteger_append false (c :: tail) extra n rest h hne

/-- Bytes added at the end do not change a hexadecimal digit read. -/
theorem readHex_append (bytes extra : List Nat) (v : Nat) (r : List Nat)
    (h : readHex bytes = some (v, r)) : readHex (bytes ++ extra) = some (v, r ++ extra) := by
  cases bytes with
  | nil => simp [readHex] at h
  | cons c rest =>
    simp only [readHex, List.cons_append] at h ⊢
    cases hv : hexValue c with
    | none => simp [hv] at h
    | some x =>
      simp only [hv, Option.some.injEq, Prod.mk.injEq] at h ⊢
      exact ⟨h.1, by rw [h.2]⟩

/-- The quote is not a hexadecimal digit. -/
theorem hexValue_quote : hexValue 34 = none := by decide

/-- A quote among the bytes is still there after a hexadecimal digit is read. -/
theorem readHex_mem (bytes : List Nat) (v : Nat) (r : List Nat)
    (h : readHex bytes = some (v, r)) (hq : 34 ∈ bytes) : 34 ∈ r := by
  cases bytes with
  | nil => simp at hq
  | cons c rest =>
    simp only [readHex] at h
    cases hv : hexValue c with
    | none => simp [hv] at h
    | some x =>
      simp only [hv, Option.some.injEq, Prod.mk.injEq] at h
      rw [List.mem_cons] at hq
      rcases hq with hq | hq
      · rw [← hq, hexValue_quote] at hv
        exact absurd hv (by simp)
      · rw [← h.2]
        exact hq

/-- The bytes after a hexadecimal digit are among the bytes given. -/
theorem readHex_subset (bytes : List Nat) (v : Nat) (r : List Nat)
    (h : readHex bytes = some (v, r)) : r ⊆ bytes := by
  cases bytes with
  | nil => simp [readHex] at h
  | cons c rest =>
    simp only [readHex] at h
    cases hv : hexValue c with
    | none => simp [hv] at h
    | some x =>
      simp only [hv, Option.some.injEq, Prod.mk.injEq] at h
      rw [← h.2]
      exact List.subset_cons_self c rest

/-- Bytes added at the end do not turn a byte that is not a hexadecimal digit
into one. -/
theorem readHex_none_append (bytes extra : List Nat) (h : readHex bytes = none)
    (hq : 34 ∈ bytes) : readHex (bytes ++ extra) = none := by
  cases bytes with
  | nil => simp at hq
  | cons c rest =>
    simp only [readHex, List.cons_append] at h ⊢
    cases hv : hexValue c with
    | none => rfl
    | some x => simp [hv] at h

/-- Bytes added at the end do not change four hexadecimal digits read. -/
theorem getu4_append (bytes extra : List Nat) (v : Nat) (r : List Nat)
    (h : getu4 bytes = some (v, r)) : getu4 (bytes ++ extra) = some (v, r ++ extra) := by
  unfold getu4 at h ⊢
  cases h1 : readHex bytes with
  | none => simp [h1] at h
  | some p1 =>
    obtain ⟨x, r1⟩ := p1
    simp only [h1] at h
    rw [readHex_append bytes extra x r1 h1]
    cases h2 : readHex r1 with
    | none => simp [h2] at h
    | some p2 =>
      obtain ⟨y, r2⟩ := p2
      simp only [h2] at h
      simp only [readHex_append r1 extra y r2 h2]
      cases h3 : readHex r2 with
      | none => simp [h3] at h
      | some p3 =>
        obtain ⟨z, r3⟩ := p3
        simp only [h3] at h
        simp only [readHex_append r2 extra z r3 h3]
        cases h4 : readHex r3 with
        | none => simp [h4] at h
        | some p4 =>
          obtain ⟨w, r4⟩ := p4
          simp only [h4, Option.some.injEq, Prod.mk.injEq] at h
          simp only [readHex_append r3 extra w r4 h4, Option.some.injEq, Prod.mk.injEq]
          exact ⟨h.1, by rw [h.2]⟩

/-- The bytes after four hexadecimal digits are among the bytes given. -/
theorem getu4_subset (bytes : List Nat) (v : Nat) (r : List Nat)
    (h : getu4 bytes = some (v, r)) : r ⊆ bytes := by
  unfold getu4 at h
  cases h1 : readHex bytes with
  | none => simp [h1] at h
  | some p1 =>
    obtain ⟨x, r1⟩ := p1
    simp only [h1] at h
    cases h2 : readHex r1 with
    | none => simp [h2] at h
    | some p2 =>
      obtain ⟨y, r2⟩ := p2
      simp only [h2] at h
      cases h3 : readHex r2 with
      | none => simp [h3] at h
      | some p3 =>
        obtain ⟨z, r3⟩ := p3
        simp only [h3] at h
        cases h4 : readHex r3 with
        | none => simp [h4] at h
        | some p4 =>
          obtain ⟨w, r4⟩ := p4
          simp only [h4, Option.some.injEq, Prod.mk.injEq] at h
          rw [← h.2]
          exact fun a ha => readHex_subset _ _ _ h1 (readHex_subset _ _ _ h2
            (readHex_subset _ _ _ h3 (readHex_subset _ _ _ h4 ha)))

/-- When the bytes hold a quote and do not start with four hexadecimal digits,
they do not either with bytes added at the end. -/
theorem getu4_none_append (bytes extra : List Nat) (h : getu4 bytes = none)
    (hq : 34 ∈ bytes) : getu4 (bytes ++ extra) = none := by
  unfold getu4 at h ⊢
  cases h1 : readHex bytes with
  | none => rw [readHex_none_append bytes extra h1 hq]
  | some p1 =>
    obtain ⟨x, r1⟩ := p1
    simp only [h1] at h
    have hq1 := readHex_mem bytes x r1 h1 hq
    simp only [readHex_append bytes extra x r1 h1]
    cases h2 : readHex r1 with
    | none => rw [readHex_none_append r1 extra h2 hq1]
    | some p2 =>
      obtain ⟨y, r2⟩ := p2
      simp only [h2] at h
      have hq2 := readHex_mem r1 y r2 h2 hq1
      simp only [readHex_append r1 extra y r2 h2]
      cases h3 : readHex r2 with
      | none => rw [readHex_none_append r2 extra h3 hq2]
      | some p3 =>
        obtain ⟨z, r3⟩ := p3
        simp only [h3] at h
        have hq3 := readHex_mem r2 z r3 h3 hq2
        simp only [readHex_append r2 extra z r3 h3]
        cases h4 : readHex r3 with
        | none => rw [readHex_none_append r3 extra h4 hq3]
        | some p4 => simp [h4] at h

/-- Bytes added at the end do not change a low surrogate read. -/
theorem lowSurrogate_append (bytes extra : List Nat) (v : Nat) (r : List Nat)
    (h : lowSurrogate bytes = some (v, r)) :
    lowSurrogate (bytes ++ extra) = some (v, r ++ extra) := by
  unfold lowSurrogate at h ⊢
  cases bytes with
  | nil => simp at h
  | cons b t =>
    cases t with
    | nil => simp at h
    | cons u rest =>
      simp only [List.cons_append] at h ⊢
      by_cases hbu : b = 92 ∧ u = 117
      · simp only [hbu, and_self, if_true] at h ⊢
        cases hg : getu4 rest with
        | none => simp [hg] at h
        | some p =>
          obtain ⟨rr1, rest2⟩ := p
          simp only [hg] at h
          rw [getu4_append rest extra rr1 rest2 hg]
          by_cases hr : 56320 ≤ rr1 ∧ rr1 < 57344
          · simp only [hr, and_self, if_true, Option.some.injEq, Prod.mk.injEq] at h ⊢
            exact ⟨h.1, by rw [h.2]⟩
          · simp [hr] at h
      · simp [hbu] at h

/-- The bytes after a low surrogate are among the bytes given. -/
theorem lowSurrogate_subset (bytes : List Nat) (v : Nat) (r : List Nat)
    (h : lowSurrogate bytes = some (v, r)) : r ⊆ bytes := by
  unfold lowSurrogate at h
  cases bytes with
  | nil => simp at h
  | cons b t =>
    cases t with
    | nil => simp at h
    | cons u rest =>
      by_cases hbu : b = 92 ∧ u = 117
      · simp only [hbu, and_self, if_true] at h
        cases hg : getu4 rest with
        | none => simp [hg] at h
        | some p =>
          obtain ⟨rr1, rest2⟩ := p
          simp only [hg] at h
          by_cases hr : 56320 ≤ rr1 ∧ rr1 < 57344
          · simp only [hr, and_self, if_true, Option.some.injEq, Prod.mk.injEq] at h
            rw [← h.2]
            intro a ha
            exact List.mem_cons_of_mem _ (List.mem_cons_of_mem _ (getu4_subset _ _ _ hg ha))
          · simp [hr] at h
      · simp [hbu] at h

/-- When the bytes hold a quote and do not start with a low surrogate, they do
not either with bytes added at the end. -/
theorem lowSurrogate_none_append (bytes extra : List Nat) (h : lowSurrogate bytes = none)
    (hq : 34 ∈ bytes) : lowSurrogate (bytes ++ extra) = none := by
  unfold lowSurrogate at h ⊢
  cases bytes with
  | nil => simp at hq
  | cons b t =>
    cases t with
    | nil =>
      have hb : b = 34 := by simpa using (List.mem_singleton.1 hq).symm
      subst hb
      cases extra with
      | nil => rfl
      | cons e es => simp
    | cons u rest =>
      simp only [List.cons_append] at h ⊢
      by_cases hbu : b = 92 ∧ u = 117
      · simp only [hbu, and_self, if_true] at h ⊢
        have hq2 : 34 ∈ rest := by
          rw [hbu.1, hbu.2] at hq
          simpa using hq
        cases hg : getu4 rest with
        | none => rw [getu4_none_append rest extra hg hq2]
        | some p =>
          obtain ⟨rr1, rest2⟩ := p
          simp only [hg] at h
          rw [getu4_append rest extra rr1 rest2 hg]
          by_cases hr : 56320 ≤ rr1 ∧ rr1 < 57344
          · simp [hr] at h
          · simp [hr]
      · simp [hbu]

/-- The bytes after a `u` escape are among the bytes given. -/
theorem scanUnicode_subset (bytes : List Nat) (ch : Char) (r : List Nat)
    (h : scanUnicode bytes = some (ch, r)) : r ⊆ bytes := by
  unfold scanUnicode at h
  cases hg : getu4 bytes with
  | none => simp [hg] at h
  | some p =>
    obtain ⟨rr, rest2⟩ := p
    have hsub := getu4_subset bytes rr rest2 hg
    simp only [hg] at h
    by_cases hhi : 55296 ≤ rr ∧ rr < 56320
    · simp only [hhi, and_self, if_true] at h
      cases hl : lowSurrogate rest2 with
      | none =>
        simp only [hl, Option.some.injEq, Prod.mk.injEq] at h
        rw [← h.2]
        exact hsub
      | some q =>
        obtain ⟨rr1, rest3⟩ := q
        simp only [hl, Option.some.injEq, Prod.mk.injEq] at h
        rw [← h.2]
        exact fun a ha => hsub (lowSurrogate_subset _ _ _ hl ha)
    · simp only [hhi, if_false] at h
      by_cases hlo : 56320 ≤ rr ∧ rr < 57344
      · simp only [hlo, and_self, if_true, Option.some.injEq, Prod.mk.injEq] at h
        rw [← h.2]
        exact hsub
      · simp only [hlo, if_false, Option.some.injEq, Prod.mk.injEq] at h
        rw [← h.2]
        exact hsub

/-- Bytes added at the end do not change a `u` escape followed, somewhere, by a
quote. -/
theorem scanUnicode_append (bytes extra : List Nat) (ch : Char) (r : List Nat)
    (h : scanUnicode bytes = some (ch, r)) (hq : 34 ∈ r) :
    scanUnicode (bytes ++ extra) = some (ch, r ++ extra) := by
  unfold scanUnicode at h ⊢
  cases hg : getu4 bytes with
  | none => simp [hg] at h
  | some p =>
    obtain ⟨rr, rest2⟩ := p
    simp only [hg] at h
    rw [getu4_append bytes extra rr rest2 hg]
    by_cases hhi : 55296 ≤ rr ∧ rr < 56320
    · simp only [hhi, and_self, if_true] at h ⊢
      cases hl : lowSurrogate rest2 with
      | none =>
        simp only [hl, Option.some.injEq, Prod.mk.injEq] at h
        have hq2 : 34 ∈ rest2 := by rw [h.2]; exact hq
        rw [lowSurrogate_none_append rest2 extra hl hq2]
        simp only [Option.some.injEq, Prod.mk.injEq]
        exact ⟨h.1, by rw [h.2]⟩
      | some q =>
        obtain ⟨rr1, rest3⟩ := q
        simp only [hl, Option.some.injEq, Prod.mk.injEq] at h
        rw [lowSurrogate_append rest2 extra rr1 rest3 hl]
        simp only [Option.some.injEq, Prod.mk.injEq]
        exact ⟨h.1, by rw [h.2]⟩
    · simp only [hhi, if_false] at h ⊢
      by_cases hlo : 56320 ≤ rr ∧ rr < 57344
      · simp only [hlo, and_self, if_true, Option.some.injEq, Prod.mk.injEq] at h ⊢
        exact ⟨h.1, by rw [h.2]⟩
      · simp only [hlo, if_false, Option.some.injEq, Prod.mk.injEq] at h ⊢
        exact ⟨h.1, by rw [h.2]⟩

/-- The bytes after an escape sequence are among the bytes given. -/
theorem scanEscape_subset (bytes : List Nat) (ch : Char) (r : List Nat)
    (h : scanEscape bytes = some (ch, r)) : r ⊆ bytes := by
  unfold scanEscape at h
  cases bytes with
  | nil => simp at h
  | cons c rest =>
    simp only at h
    have hsub : rest ⊆ c :: rest := List.subset_cons_self c rest
    by_cases hc : c = 117
    · simp only [hc, if_true] at h
      exact fun a ha => hsub (scanUnicode_subset rest ch r h ha)
    · simp only [hc, if_false] at h
      cases hs : simpleEscape c with
      | none => simp [hs] at h
      | some x =>
        simp only [hs, Option.some.injEq, Prod.mk.injEq] at h
        rw [← h.2]
        exact hsub

/-- Bytes added at the end do not change an escape sequence followed, somewhere,
by a quote. -/
theorem scanEscape_append (bytes extra : List Nat) (ch : Char) (r : List Nat)
    (h : scanEscape bytes = some (ch, r)) (hq : 34 ∈ r) :
    scanEscape (bytes ++ extra) = some (ch, r ++ extra) := by
  unfold scanEscape at h ⊢
  cases bytes with
  | nil => simp at h
  | cons c rest =>
    simp only [List.cons_append] at h ⊢
    by_cases hc : c = 117
    · simp only [hc, if_true] at h ⊢
      exact scanUnicode_append rest extra ch r h hq
    · simp only [hc, if_false] at h ⊢
      cases hs : simpleEscape c with
      | none => simp [hs] at h
      | some x =>
        simp only [hs, Option.some.injEq, Prod.mk.injEq] at h ⊢
        exact ⟨h.1, by rw [h.2]⟩

/-- Bytes added at the end do not change a continuation byte read. -/
theorem readCont_append (lo hi : Nat) (bytes extra : List Nat) (v : Nat) (r : List Nat)
    (h : readCont lo hi bytes = some (v, r)) :
    readCont lo hi (bytes ++ extra) = some (v, r ++ extra) := by
  cases bytes with
  | nil => simp [readCont] at h
  | cons b rest =>
    simp only [readCont, List.cons_append] at h ⊢
    by_cases hb : lo ≤ b ∧ b ≤ hi
    · simp only [hb, and_self, if_true, Option.some.injEq, Prod.mk.injEq] at h ⊢
      exact ⟨h.1, by rw [h.2]⟩
    · simp [hb] at h

/-- The bytes after a continuation byte are among the bytes given. -/
theorem readCont_subset (lo hi : Nat) (bytes : List Nat) (v : Nat) (r : List Nat)
    (h : readCont lo hi bytes = some (v, r)) : r ⊆ bytes := by
  cases bytes with
  | nil => simp [readCont] at h
  | cons b rest =>
    simp only [readCont] at h
    by_cases hb : lo ≤ b ∧ b ≤ hi
    · simp only [hb, and_self, if_true, Option.some.injEq, Prod.mk.injEq] at h
      rw [← h.2]
      exact List.subset_cons_self b rest
    · simp [hb] at h

/-- A quote among the bytes is still there after a continuation byte is read. -/
theorem readCont_mem (lo hi : Nat) (bytes : List Nat) (v : Nat) (r : List Nat)
    (hlo : 34 < lo) (h : readCont lo hi bytes = some (v, r)) (hq : 34 ∈ bytes) : 34 ∈ r := by
  cases bytes with
  | nil => simp at hq
  | cons b rest =>
    simp only [readCont] at h
    by_cases hb : lo ≤ b ∧ b ≤ hi
    · simp only [hb, and_self, if_true, Option.some.injEq, Prod.mk.injEq] at h
      rw [List.mem_cons] at hq
      rcases hq with hq | hq
      · omega
      · rw [← h.2]
        exact hq
    · simp [hb] at h

/-- Bytes added at the end do not turn a first byte that is not a continuation
byte into one. -/
theorem readCont_none_append (lo hi : Nat) (bytes extra : List Nat)
    (h : readCont lo hi bytes = none) (hq : 34 ∈ bytes) :
    readCont lo hi (bytes ++ extra) = none := by
  cases bytes with
  | nil => simp at hq
  | cons b rest =>
    simp only [readCont, List.cons_append] at h ⊢
    by_cases hb : lo ≤ b ∧ b ≤ hi
    · simp [hb] at h
    · simp [hb]

/-- The bytes after a rune are among the bytes given. -/
theorem decodeRune_subset (c : Nat) (rest : List Nat) : (decodeRune c rest).2 ⊆ rest := by
  unfold decodeRune
  repeat' split
  all_goals first
    | exact List.Subset.refl _
    | (rename_i h1
       exact readCont_subset _ _ _ _ _ h1)
    | (rename_i h1 _ _ _ h2
       exact fun a ha => readCont_subset _ _ _ _ _ h1 (readCont_subset _ _ _ _ _ h2 ha))
    | (rename_i h1 _ _ _ h2 _ _ _ h3
       exact fun a ha => readCont_subset _ _ _ _ _ h1 (readCont_subset _ _ _ _ _ h2
         (readCont_subset _ _ _ _ _ h3 ha)))

/-- Bytes added at the end do not change a rune followed, somewhere, by a quote. -/
theorem decodeRune_append (c : Nat) (rest extra : List Nat)
    (hq : 34 ∈ (decodeRune c rest).2) :
    decodeRune c (rest ++ extra) = ((decodeRune c rest).1, (decodeRune c rest).2 ++ extra) := by
  have hrest : 34 ∈ rest := decodeRune_subset c rest hq
  unfold decodeRune
  by_cases h2 : 194 ≤ c ∧ c ≤ 223
  · simp only [h2, and_self, if_true]
    cases h1 : readCont 128 191 rest with
    | none => rw [readCont_none_append _ _ rest extra h1 hrest]
    | some p =>
      obtain ⟨x1, r1⟩ := p
      rw [readCont_append _ _ rest extra x1 r1 h1]
  · simp only [h2, if_false]
    by_cases h3 : 224 ≤ c ∧ c ≤ 239
    · simp only [h3, and_self, if_true]
      have hlo : 34 < (if c = 224 then 160 else 128) := by split <;> norm_num
      cases h1 : readCont (if c = 224 then 160 else 128) (if c = 237 then 159 else 191)
          rest with
      | none => rw [readCont_none_append _ _ rest extra h1 hrest]
      | some p =>
        obtain ⟨x1, r1⟩ := p
        have hr1 := readCont_mem _ _ rest x1 r1 hlo h1 hrest
        rw [readCont_append _ _ rest extra x1 r1 h1]
        simp only
        cases h1b : readCont 128 191 r1 with
        | none => rw [readCont_none_append _ _ r1 extra h1b hr1]
        | some q =>
          obtain ⟨x2, r2⟩ := q
          rw [readCont_append _ _ r1 extra x2 r2 h1b]
    · simp only [h3, if_false]
      by_cases h4 : 240 ≤ c ∧ c ≤ 244
      · simp only [h4, and_self, if_true]
        have hlo : 34 < (if c = 240 then 144 else 128) := by split <;> norm_num
        cases h1 : readCont (if c = 240 then 144 else 128) (if c = 244 then 143 else 191)
            rest with
        | none => rw [readCont_none_append _ _ rest extra h1 hrest]
        | some p =>
          obtain ⟨x1, r1⟩ := p
          have hr1 := readCont_mem _ _ rest x1 r1 hlo h1 hrest
          rw [readCont_append _ _ rest extra x1 r1 h1]
          simp only
          cases h1b : readCont 128 191 r1 with
          | none => rw [readCont_none_append _ _ r1 extra h1b hr1]
          | some q =>
            obtain ⟨x2, r2⟩ := q
            have hr2 := readCont_mem _ _ r1 x2 r2 (by norm_num) h1b hr1
            rw [readCont_append _ _ r1 extra x2 r2 h1b]
            simp only
            cases h1c : readCont 128 191 r2 with
            | none => rw [readCont_none_append _ _ r2 extra h1c hr2]
            | some t =>
              obtain ⟨x3, r3⟩ := t
              rw [readCont_append _ _ r2 extra x3 r3 h1c]
      · simp only [h4, if_false]

/-- A string that is read ends with a quote. -/
theorem scanString_mem (fuel : Nat) (bytes : List Nat) (acc : List Char) (s : String)
    (r : List Nat) (h : scanString fuel bytes acc = some (s, r)) : 34 ∈ bytes := by
  induction fuel generalizing bytes acc with
  | zero => simp [scanString] at h
  | succ fuel ih =>
    unfold scanString at h
    cases bytes with
    | nil => simp at h
    | cons c rest =>
      simp only at h
      by_cases hc : c = 34
      · rw [hc]
        exact List.mem_cons_self _ _
      · simp only [hc, if_false] at h
        apply List.mem_cons_of_mem
        by_cases hb : c = 92
        · simp only [hb, if_true] at h
          cases he : scanEscape rest with
          | none => simp [he] at h
          | some p =>
            obtain ⟨ch, rest2⟩ := p
            simp only [he] at h
            exact scanEscape_subset rest ch rest2 he (ih _ _ h)
        · simp only [hb, if_false] at h
          by_cases hlow : c < 32
          · simp [hlow] at h
          · simp only [hlow, if_false] at h
            by_cases hascii : c < 128
            · simp only [hascii, if_true] at h
              exact ih _ _ h
            · simp only [hascii, if_false] at h
              exact decodeRune_subset c rest (ih _ _ h)

/-- Bytes added at the end, and a larger bound, do not change a string read. -/
theorem scanString_append (fuel : Nat) (bytes extra : List Nat) (acc : List Char)
    (s : String) (r : List Nat) (h : scanString fuel bytes acc = some (s, r))
    (more : Nat) (hmore : fuel ≤ more) :
    scanString more (bytes ++ extra) acc = some (s, r ++ extra) := by
  induction fuel generalizing bytes acc more with
  | zero => simp [scanString] at h
  | succ fuel ih =>
    obtain ⟨m, rfl⟩ : ∃ m, more = m + 1 := ⟨more - 1, by omega⟩
    have hm : fuel ≤ m := by omega
    unfold scanString at h ⊢
    cases bytes with
    | nil => simp at h
    | cons c rest =>
      simp only [List.cons_append] at h ⊢
      by_cases hc : c = 34
      · simp only [hc, if_true, Option.some.injEq, Prod.mk.injEq] at h ⊢
        exact ⟨h.1, by rw [h.2]⟩
      · simp only [hc, if_false] at h ⊢
        by_cases hb : c = 92
        · simp only [hb, if_true] at h ⊢
          cases he : scanEscape rest with
          | none => simp [he] at h
          | some p =>
            obtain ⟨ch, rest2⟩ := p
            simp only [he] at h
            have hq := scanString_mem _ _ _ _ _ h
            rw [scanEscape_append rest extra ch rest2 he hq]
            exact ih _ _ h m hm
        · simp only [hb, if_false] at h ⊢
          by_cases hlow : c < 32
          · simp [hlow] at h
          · simp only [hlow, if_false] at h ⊢
            by_cases hascii : c < 128
            · simp only [hascii, if_true] at h ⊢
              exact ih _ _ h m hm
            · simp only [hascii, if_false] at h ⊢
              have hq := scanString_mem _ _ _ _ _ h
              rw [decodeRune_append c rest extra hq]
              exact ih _ _ h m hm

/-- Bytes added at the end do not change the match of expected bytes. -/
theorem expect_append (lit bytes extra r : List Nat) (h : expect lit bytes = some r) :
    expect lit (bytes ++ extra) = some (r ++ extra) := by
  induction lit generalizing bytes with
  | nil =>
    simp only [expect, Option.some.injEq] at h ⊢
    rw [h]
  | cons l ls ih =>
    cases bytes with
    | nil => simp [expect] at h
    | cons b rest =>
      simp only [expect, List.cons_append] at h ⊢
      by_cases hl : l = b
      · simp only [hl, if_true] at h ⊢
        exact ih rest h
      · simp [hl] at h

/-- Bytes added at the end, and a larger bound, do not change the elements read. -/
theorem parseElements_append (pv pv2 : List Nat → Option (Value × List Nat))
    (hpv : ∀ bytes v r extra, pv bytes = some (v, r) → r ≠ [] →
      pv2 (bytes ++ extra) = some (v, r ++ extra))
    (fuel : Nat) (bytes extra : List Nat) (acc vs : List Value) (r : List Nat)
    (h : parseElements pv fuel bytes acc = some (vs, r)) (more : Nat) (hmore : fuel ≤ more) :
    parseElements pv2 more (bytes ++ extra) acc = some (vs, r ++ extra) := by
  induction fuel generalizing bytes acc more with
  | zero => simp [parseElements] at h
  | succ fuel ih =>
    obtain ⟨m, rfl⟩ : ∃ m, more = m + 1 := ⟨more - 1, by omega⟩
    have hm : fuel ≤ m := by omega
    unfold parseElements at h ⊢
    cases hp : pv bytes with
    | none => simp [hp] at h
    | some p =>
      obtain ⟨v, rest⟩ := p
      simp only [hp] at h
      cases hs : skipSpace rest with
      | nil => simp [hs] at h
      | cons c rest2 =>
        have hne : rest ≠ [] := by
          intro hnil
          rw [hnil] at hs
          simp [skipSpace] at hs
        rw [hpv bytes v rest extra hp hne]
        simp only [hs] at h
        simp only [skipSpace_append rest extra c rest2 hs]
        by_cases hc : c = 44
        · simp only [hc, if_true] at h ⊢
          exact ih _ _ h m hm
        · simp only [hc, if_false] at h ⊢
          by_cases hc2 : c = 93
          · simp only [hc2, if_true, Option.some.injEq, Prod.mk.injEq] at h ⊢
            exact ⟨h.1, by rw [h.2]⟩
          · simp [hc2] at h

/-- Bytes added at the end, and a larger bound, do not change the members read. -/
theorem parseMembers_append (pv pv2 : List Nat → Option (Value × List Nat))
    (hpv : ∀ bytes v r extra, pv bytes = some (v, r) → r ≠ [] →
      pv2 (bytes ++ extra) = some (v, r ++ extra))
    (fuel : Nat) (bytes extra : List Nat) (acc fields : List (String × Value))
    (r : List Nat)
    (h : parseMembers pv fuel bytes acc = some (fields, r)) (more : Nat)
    (hmore : fuel ≤ more) :
    parseMembers pv2 more (bytes ++ extra) acc = some (fields, r ++ extra) := by
  induction fuel generalizing bytes acc more with
  | zero => simp [parseMembers] at h
  | succ fuel ih =>
    obtain ⟨m, rfl⟩ : ∃ m, more = m + 1 := ⟨more - 1, by omega⟩
    have hm : fuel ≤ m := by omega
    unfold parseMembers at h ⊢
    cases hs : skipSpace bytes with
    | nil => simp [hs] at h
    | cons q rest =>
      simp only [hs] at h
      simp only [skipSpace_append bytes extra q rest hs]
      by_cases hq : q = 34
      · simp only [hq, if_true] at h ⊢
        cases hstr : scanString (rest.length + 1) rest [] with
        | none => simp [hstr] at h
        | some p =>
          obtain ⟨key, rest2⟩ := p
          simp only [hstr] at h
          rw [scanString_append _ rest extra [] key rest2 hstr ((rest ++ extra).length + 1)
            (by simp)]
          simp only
          cases hs2 : skipSpace rest2 with
          | nil => simp [hs2] at h
          | cons colon rest3 =>
            simp only [hs2] at h
            simp only [skipSpace_append rest2 extra colon rest3 hs2]
            by_cases hcol : colon = 58
            · simp only [hcol, if_true] at h ⊢
              cases hp : pv rest3 with
              | none => simp [hp] at h
              | some pr =>
                obtain ⟨v, rest4⟩ := pr
                simp only [hp] at h
                cases hs3 : skipSpace rest4 with
                | nil => simp [hs3] at h
                | cons c rest5 =>
                  have hne : rest4 ≠ [] := by
                    intro hnil
                    rw [hnil] at hs3
                    simp [skipSpace] at hs3
                  rw [hpv rest3 v rest4 extra hp hne]
                  simp only [hs3] at h
                  simp only [skipSpace_append rest4 extra c rest5 hs3]
                  by_cases hc : c = 44
                  · simp only [hc, if_true] at h ⊢
                    exact ih _ _ h m hm
                  · simp only [hc, if_false] at h ⊢
                    by_cases hc2 : c = 125
                    · simp only [hc2, if_true, Option.some.injEq, Prod.mk.injEq] at h ⊢
                      exact ⟨h.1, by rw [h.2]⟩
                    · simp [hc2] at h
            · simp [hcol] at h
      · simp [hq] at h

/-- Bytes added at the end, and a larger bound, do not change the first JSON
value read, provided a number is followed by another byte. -/
theorem parseValue_append (fuel : Nat) (bytes : List Nat) (v : Value) (r : List Nat)
    (h : parseValue fuel bytes = some (v, r))
    (hscalar : r ≠ [] ∨ ∀ n, v ≠ .number n)
    (more : Nat) (hmore : fuel ≤ more) (extra : List Nat) :
    parseValue more (bytes ++ extra) = some (v, r ++ extra) := by
  induction fuel generalizing bytes v r more extra with
  | zero => simp [parseValue] at h
  | succ fuel ih =>
    obtain ⟨m, rfl⟩ : ∃ m, more = m + 1 := ⟨more - 1, by omega⟩
    have hm : fuel ≤ m := by omega
    have hpv : ∀ bytes v r extra, parseValue fuel bytes = some (v, r) → r ≠ [] →
        parseValue m (bytes ++ extra) = some (v, r ++ extra) :=
      fun bytes v r extra hp hne => ih bytes v r hp (Or.inl hne) m hm extra
    unfold parseValue at h ⊢
    cases hs : skipSpace bytes with
    | nil => simp [hs] at h
    | cons c rest =>
      simp only [hs] at h
      simp only [skipSpace_append bytes extra c rest hs]
      by_cases hobj : c = 123
      · simp only [hobj, if_true] at h ⊢
        cases hs2 : skipSpace rest with
        | nil => simp [hs2] at h
        | cons c2 rest2 =>
          simp only [hs2] at h
          simp only [skipSpace_append rest extra c2 rest2 hs2]
          by_cases hclose : c2 = 125
          · simp only [hclose, if_true, Option.some.injEq, Prod.mk.injEq] at h ⊢
            exact ⟨h.1, by rw [h.2]⟩
          · simp only [hclose, if_false] at h ⊢
            cases hmem : parseMembers (parseValue fuel) fuel (c2 :: rest2) [] with
            | none => simp [hmem] at h
            | some p =>
              obtain ⟨fields, rest3⟩ := p
              simp only [hmem, Option.some.injEq, Prod.mk.injEq] at h
              have := parseMembers_append (parseValue fuel) (parseValue m) hpv fuel
                (c2 :: rest2) extra [] fields rest3 hmem m hm
              simp only [List.cons_append] at this
              rw [this]
              simp only [Option.some.injEq, Prod.mk.injEq]
              exact ⟨h.1, by rw [h.2]⟩
      · simp only [hobj, if_false] at h ⊢
        by_cases harr : c = 91
        · simp only [harr, if_true] at h ⊢
          cases hs2 : skipSpace rest with
          | nil => simp [hs2] at h
          | cons c2 rest2 =>
            simp only [hs2] at h
            simp only [skipSpace_append rest extra c2 rest2 hs2]
            by_cases hclose : c2 = 93
            · simp only [hclose, if_true, Option.some.injEq, Prod.mk.injEq] at h ⊢
              exact ⟨h.1, by rw [h.2]⟩
            · simp only [hclose, if_false] at h ⊢
              cases hel : parseElements (parseValue fuel) fuel (c2 :: rest2) [] with
              | none => simp [hel] at h
              | some p =>
                obtain ⟨elems, rest3⟩ := p
                simp only [hel, Option.some.injEq, Prod.mk.injEq] at h
                have := parseElements_append (parseValue fuel) (parseValue m) hpv fuel
                  (c2 :: rest2) extra [] elems rest3 hel m hm
                simp only [List.cons_append] at this
                rw [this]
                simp only [Option.some.injEq, Prod.mk.injEq]
                exact ⟨h.1, by rw [h.2]⟩
        · simp only [harr, if_false] at h ⊢
          by_cases hstr : c = 34
          · simp only [hstr, if_true] at h ⊢
            cases hsc : scanString (rest.length + 1) rest [] with
            | none => simp [hsc] at h
            | some p =>
              obtain ⟨str, rest2⟩ := p
              simp only [hsc, Option.some.injEq, Prod.mk.injEq] at h
              rw [scanString_append _ rest extra [] str rest2 hsc
                ((rest ++ extra).length + 1) (by simp)]
              simp only [Option.some.injEq, Prod.mk.injEq]
              exact ⟨h.1, by rw [h.2]⟩
          · simp only [hstr, if_false] at h ⊢
            by_cases ht : c = 116
            · simp only [ht, if_true] at h ⊢
              cases he : expect [114, 117, 101] rest with
              | none => simp [he] at h
              | some rest2 =>
                simp only [he, Option.some.injEq, Prod.mk.injEq] at h
                rw [expect_append _ rest extra rest2 he]
                simp only [Option.some.injEq, Prod.mk.injEq]
                exact ⟨h.1, by rw [h.2]⟩
            · simp only [ht, if_false] at h ⊢
              by_cases hf : c = 102
              · simp only [hf, if_true] at h ⊢
                cases he : expect [97, 108, 115, 101] rest with
                | none => simp [he] at h
                | some rest2 =>
                  simp only [he, Option.some.injEq, Prod.mk.injEq] at h
                  rw [expect_append _ rest extra rest2 he]
                  simp only [Option.some.injEq, Prod.mk.injEq]
                  exact ⟨h.1, by rw [h.2]⟩
              · simp only [hf, if_false] at h ⊢
                by_cases hn : c = 110
                · simp only [hn, if_true] at h ⊢
                  cases he : expect [117, 108, 108] rest with
                  | none => simp [he] at h
                  | some rest2 =>
                    simp only [he, Option.some.injEq, Prod.mk.injEq] at h
                    rw [expect_append _ rest extra rest2 he]
                    simp only [Option.some.injEq, Prod.mk.injEq]
                    exact ⟨h.1, by rw [h.2]⟩
                · simp only [hn, if_false] at h ⊢
                  cases hnum : scanNumber (c :: rest) with
                  | none => simp [hnum] at h
                  | some p =>
                    obtain ⟨n, rest2⟩ := p
                    simp only [hnum, Option.some.injEq, Prod.mk.injEq] at h
                    have hne : rest2 ≠ [] := by
                      rcases hscalar with hne | hnot
                      · rw [h.2]
                        exact hne
                      · exact absurd h.1.symm (hnot n)
                    have := scanNumber_append (c :: rest) extra n rest2 hnum hne
                    simp only [List.cons_append] at this
                    rw [this]
                    simp only [Option.some.injEq, Prod.mk.injEq]
                    exact ⟨h.1, by rw [h.2]⟩

/-- Bytes added after a first JSON object do not change what the decoder gives. -/
theorem Decode_append (bytes extra : List Nat) (fields : List (String × Value))
    (h : Decode bytes = some (.object fields)) :
    Decode (bytes ++ extra) = some (.object fields) := by
  unfold Decode at h
  cases hp : parseValue (bytes.length + 1) bytes with
  | none => simp [hp] at h
  | some res =>
    obtain ⟨v, rest⟩ := res
    simp only [hp, Option.some.injEq] at h
    subst h
    have := parseValue_append _ bytes _ rest hp (Or.inr (by simp))
      ((bytes ++ extra).length + 1) (by simp) extra
    unfold Decode
    rw [this]

/-- The loop of `ParseNlpData` never ends with an error. -/
theorem rangeLoop_ne_failed (parser : witParser) (ParseTime : String → Except Error Time)
    (fields : List (String × Value)) (intent : Option ParsedIntent)
    (entities : List ParsedEntity) (err : Error) :
    rangeLoop parser ParseTime fields intent entities ≠ .failed err := by
  induction fields generalizing intent entities with
  | nil => simp [rangeLoop]
  | cons field rest ih =>
    obtain ⟨key, value⟩ := field
    simp only [rangeLoop]
    cases hd : parser.dataTypeMap key with
    | none => simpa using ih intent entities
    | some dataType =>
      cases dataType with
      | IntentEntity =>
        cases hi : toIntent value with
        | panicked => simp
        | failed e => simpa using ih intent entities
        | returned i => simpa using ih (some i) entities
      | IntEntity =>
        cases he : toEntity ParseTime value key .IntEntity with
        | error e => simpa [he] using ih intent entities
        | ok entity => simpa [he] using ih intent (entities ++ [entity])
      | DateTimeEntity =>
        cases he : toEntity ParseTime value key .DateTimeEntity with
        | error e => simpa [he] using ih intent entities
        | ok entity => simpa [he] using ih intent (entities ++ [entity])
      | other n =>
        cases he : toEntity ParseTime value key (.other n) with
        | error e => simpa [he] using ih intent entities
        | ok entity => simpa [he] using ih intent (entities ++ [entity])

/-- C1 fails as stated: the bytes
`{"nb_persons": [{"value": 3, "confidence": 0.87}]} trailing` are not valid
JSON (the same bytes without ` trailing` are), yet `ParseNlpData` returns a
`ParsedData` holding the integer entity, with a nil error: the decoder reads
the first JSON value and leaves the bytes after it unread. -/
theorem ParseNlpData_trailing_bytes :
    isJsonText (asciiBytes
        "\x7b\"nb_persons\": [\x7b\"value\": 3, \"confidence\": 0.87\x7d]\x7d trailing") =
      false ∧
    isJsonText (asciiBytes
        "\x7b\"nb_persons\": [\x7b\"value\": 3, \"confidence\": 0.87\x7d]\x7d") = true ∧
    ParseNlpData newParser sampleParseTime (Decode (asciiBytes
        "\x7b\"nb_persons\": [\x7b\"value\": 3, \"confidence\": 0.87\x7d]\x7d trailing")) =
      .returned ⟨none, [.int "nb_persons" (float32 ⟨87, -2⟩) 3 ""]⟩ :=
  ⟨rfl, rfl, rfl⟩

/-- C1 as amended: for every byte sequence, `ParseNlpData` returns the error
`ErrCouldNotParseJson` and no `ParsedData` exactly when the first JSON value of
the bytes is malformed or missing, or is not an object; this is the case
whenever the first byte after leading white space is not `{`. The bytes after
a first JSON object are not examined: with any bytes added after it the
decoder gives the same object and `ParseNlpData` ends in the same way. -/
theorem ParseNlpData_first_json_value (parser : witParser)
    (ParseTime : String → Except Error Time) (bytes : List Nat) :
    (ParseNlpData parser ParseTime (Decode bytes) = .failed .ErrCouldNotParseJson ↔
        ∀ fields, Decode bytes ≠ some (.object fields)) ∧
      ((∀ tail, skipSpace bytes ≠ 123 :: tail) →
        ParseNlpData parser ParseTime (Decode bytes) = .failed .ErrCouldNotParseJson) ∧
      (∀ fields extra, Decode bytes = some (.object fields) →
        Decode (bytes ++ extra) = some (.object fields) ∧
        ParseNlpData parser ParseTime (Decode (bytes ++ extra)) =
          ParseNlpData parser ParseTime (Decode bytes)) := by
  have hfail : (∀ fields, Decode bytes ≠ some (.object fields)) →
      ParseNlpData parser ParseTime (Decode bytes) = .failed .ErrCouldNotParseJson :=
    fun h => ParseNlpData_malformed parser ParseTime (Decode bytes) h
  refine ⟨⟨?_, hfail⟩, ?_, ?_⟩
  · intro h fields hdec
    rw [hdec, ParseNlpData_object] at h
    exact rangeLoop_ne_failed parser ParseTime fields none [] _ h
  · intro hfirst
    apply hfail
    intro fields hdec
    obtain ⟨tail, htail⟩ := Decode_object_first bytes fields hdec
    exact hfirst tail htail
  · intro fields extra hdec
    have happ := Decode_append bytes extra fields hdec
    exact ⟨happ, by rw [happ, hdec]⟩

/-- Witness of C1 as amended: the bytes `[1, 2]` start with `[`, so the call
fails; the bytes `{}` followed by ` x` are handled like the bytes `{}`. -/
theorem ParseNlpData_first_json_value_witness :
    ParseNlpData newParser sampleParseTime (Decode (asciiBytes "[1, 2]")) =
        .failed .ErrCouldNotParseJson ∧
      (Decode (asciiBytes "\x7b\x7d" ++ asciiBytes " x") = some (.object []) ∧
        ParseNlpData newParser sampleParseTime
            (Decode (asciiBytes "\x7b\x7d" ++ asciiBytes " x")) =
          ParseNlpData newParser sampleParseTime (Decode (asciiBytes "\x7b\x7d"))) :=
  ⟨(ParseNlpData_first_json_value newParser sampleParseTime (asciiBytes "[1, 2]")).2.1
      (fun tail h => absurd
        (show (some 91 : Option Nat) = some 123 from congrArg List.head? h) (by decide)),
    (ParseNlpData_first_json_value newParser sampleParseTime (asciiBytes "\x7b\x7d")).2.2
      [] (asciiBytes " x") rfl⟩

end Wit
